import Mathlib

/-! Account-level traversal of an Azure Files account.

A shallow embedding of `cmd/zc_traverser_file_account.go`.

The Go code talks to four collaborators that live outside the file: the paged
listing call `ServiceURL.ListSharesSegment`, the glob matcher `filepath.Match`,
the per-share traverser (`newFileTraverser` and its `traverse` method) and the
processor decorator `initContainerDecorator`.  They are taken as parameters
(`Collaborators`).  Side effects are modelled by explicit state passing over a
world state `σ`, and every call the account traverser makes to a collaborator is
appended to a call log, so that "which shares were visited, in which order, with
which arguments" is an observable of the model.
-/

namespace cmd

/-! ## Data model -/

/-- The continuation token `azfile.Marker`: a nullable string.  The zero value
`Marker{}` has `Val = nil`. -/
structure Marker where
  Val : Option String
deriving DecidableEq, Repr

/-- The method `Marker.NotDone` of azfile: `m.Val == nil || *m.Val != ""`. -/
def Marker.NotDone (m : Marker) : Bool :=
  match m.Val with
  | none => true
  | some v => v != ""

/-- One entry of `resp.ShareItems`; only `Name` is read by the traverser. -/
structure ShareItem where
  Name : String
deriving DecidableEq, Repr

/-- The part of `azfile.ListSharesResponse` the traverser reads. -/
structure ListSharesResponse where
  ShareItems : List ShareItem
  NextMarker : Marker
deriving DecidableEq, Repr

/-- The value `azfile.NewServiceURL(url, p)`: a primary URL paired with a pipeline. -/
structure ServiceURL (υ ρ : Type) where
  url : υ
  p : ρ

/-- The value `azfile.NewServiceURL(url, p)`. -/
def NewServiceURL {υ ρ : Type} (url : υ) (p : ρ) : ServiceURL υ ρ := ⟨url, p⟩

/-- The struct `fileAccountTraverser` (source lines 33-41). -/
structure fileAccountTraverser (υ ρ χ κ : Type) where
  accountURL : ServiceURL υ ρ
  p : ρ
  ctx : χ
  sharePattern : String
  incrementEnumerationCounter : κ

/-- The components of a parsed file URL (`azfile.FileURLParts`): the share name
and all remaining components (scheme, host, path, snapshot, SAS, query). -/
structure FileURLParts (α : Type) where
  ShareName : String
  others : α

/-- A call made by the account traverser to one of its collaborators, with the
arguments it passes. -/
inductive Call (υ ρ χ κ τ π φ : Type) where
  | ListSharesSegment (accountURL : ServiceURL υ ρ) (ctx : χ) (marker : Marker)
  | Match (pattern name : String)
  | NewShareURL (accountURL : ServiceURL υ ρ) (name : String)
  | newFileTraverser (shareURL : υ) (p : ρ) (ctx : χ) (recursive : Bool) (counter : κ)
  | initContainerDecorator (name : String) (processor : π)
  | traverse (shareTraverser : τ) (processor : π) (filters : φ)

/-- The collaborators of the account traverser.  `σ` is the state of the world
(remote service, processor side effects, enumeration counter), `ε` the type of Go
errors. -/
structure Collaborators (σ ε υ ρ χ κ τ π φ : Type) where
  /-- The call `accountURL.ListSharesSegment(ctx, marker, ListSharesOptions{})`. -/
  ListSharesSegment : ServiceURL υ ρ → χ → Marker → σ → Except ε ListSharesResponse × σ
  /-- The call `filepath.Match(pattern, name)`, returning `(matched, err)`. -/
  Match : String → String → Bool × Option ε
  /-- The value `accountURL.NewShareURL(name).URL()`. -/
  NewShareURL : ServiceURL υ ρ → String → υ
  /-- The constructor `newFileTraverser(&shareURL, p, ctx, recursive, counter)`. -/
  newFileTraverser : υ → ρ → χ → Bool → κ → τ
  /-- The constructor `initContainerDecorator(name, processor)`. -/
  initContainerDecorator : String → π → π
  /-- The method `shareTraverser.traverse(processor, filters)`. -/
  traverse : τ → π → φ → σ → Option ε × σ

/-- What a (partial run of a) traversal produced: the error to return (`none`
is Go's `nil`), the calls made so far and the resulting world state. -/
structure Outcome (σ ε C : Type) where
  err : Option ε
  log : List C
  state : σ

/-- Put earlier calls in front of an outcome's log. -/
def Outcome.after {σ ε C : Type} (o : Outcome σ ε C) (earlier : List C) : Outcome σ ε C :=
  { o with log := earlier ++ o.log }

/-! ## The glob matcher

A model of Go's `path/filepath.Match` (standard library, Go 1.16 and later,
non-Windows).  As in Go, pattern and name are strings of bytes: a string is taken
as the list of its UTF-8 bytes, literals are compared byte by byte, the star loop
skips bytes, and `?` and character classes decode one rune with
`utf8.DecodeRuneInString`.  The traversal theorems do not depend on this model:
they hold for every matcher.  It instantiates the matcher in the concrete
scenarios. -/

namespace utf8

/-- The rune `utf8.RuneError`. -/
def RuneError : Nat := 0xFFFD

/-- The UTF-8 bytes of one code point. -/
def encodeRune (c : Char) : List Nat :=
  let v := c.toNat
  if v < 0x80 then [v]
  else if v < 0x800 then [0xC0 + v / 64, 0x80 + v % 64]
  else if v < 0x10000 then [0xE0 + v / 4096, 0x80 + v / 64 % 64, 0x80 + v % 64]
  else [0xF0 + v / 262144, 0x80 + v / 4096 % 64, 0x80 + v / 64 % 64, 0x80 + v % 64]

/-- The bytes of a Go string holding the text `s`. -/
def bytes (s : String) : List Nat := s.toList.flatMap encodeRune

/-- Go's `utf8.DecodeRuneInString`: the first rune of `s` and its width in bytes;
`(RuneError, 0)` for the empty string and `(RuneError, 1)` for an invalid
encoding. -/
def DecodeRuneInString (s : List Nat) : Nat × Nat :=
  match s with
  | [] => (RuneError, 0)
  | s0 :: s1 :: s2 :: s3 :: _ =>
    if s0 < 0x80 then (s0, 1)
    else if s0 < 0xC2 ∨ 0xF4 < s0 then (RuneError, 1)
    else if s1 < (if s0 = 0xE0 then 0xA0 else if s0 = 0xF0 then 0x90 else 0x80) ∨
        (if s0 = 0xED then 0x9F else if s0 = 0xF4 then 0x8F else 0xBF) < s1 then
      (RuneError, 1)
    else if s0 < 0xE0 then (s0 % 32 * 64 + s1 % 64, 2)
    else if s2 < 0x80 ∨ 0xBF < s2 then (RuneError, 1)
    else if s0 < 0xF0 then (s0 % 16 * 4096 + s1 % 64 * 64 + s2 % 64, 3)
    else if s3 < 0x80 ∨ 0xBF < s3 then (RuneError, 1)
    else (s0 % 8 * 262144 + s1 % 64 * 4096 + s2 % 64 * 64 + s3 % 64, 4)
  | [s0, s1, s2] =>
    if s0 < 0x80 then (s0, 1)
    else if s0 < 0xC2 ∨ 0xF4 < s0 then (RuneError, 1)
    else if 0xF0 ≤ s0 then (RuneError, 1)
    else if s1 < (if s0 = 0xE0 then 0xA0 else 0x80) ∨
        (if s0 = 0xED then 0x9F else 0xBF) < s1 then
      (RuneError, 1)
    else if s0 < 0xE0 then (s0 % 32 * 64 + s1 % 64, 2)
    else if s2 < 0x80 ∨ 0xBF < s2 then (RuneError, 1)
    else (s0 % 16 * 4096 + s1 % 64 * 64 + s2 % 64, 3)
  | [s0, s1] =>
    if s0 < 0x80 then (s0, 1)
    else if s0 < 0xC2 ∨ 0xF4 < s0 then (RuneError, 1)
    else if 0xE0 ≤ s0 then (RuneError, 1)
    else if s1 < 0x80 ∨ 0xBF < s1 then (RuneError, 1)
    else (s0 % 32 * 64 + s1 % 64, 2)
  | [s0] => if s0 < 0x80 then (s0, 1) else (RuneError, 1)

end utf8

namespace filepath

variable {ε : Type}

/-- The path separator `os.PathSeparator`, the byte of the slash. -/
def Separator : Nat := 47

/-- The byte of the star. -/
def Star : Nat := 42

/-- The byte of the question mark. -/
def Question : Nat := 63

/-- The byte of the backslash. -/
def Backslash : Nat := 92

/-- The byte of the opening bracket. -/
def LBracket : Nat := 91

/-- The byte of the closing bracket. -/
def RBracket : Nat := 93

/-- The byte of the caret. -/
def Caret : Nat := 94

/-- The byte of the dash. -/
def Dash : Nat := 45

/-- First loop of `scanChunk`: drop leading stars, remembering whether there was one. -/
def skipStars : List Nat → Bool → Bool × List Nat
  | [], star => (star, [])
  | c :: pattern, star => if c = Star then skipStars pattern true else (star, c :: pattern)

/-- Second loop of `scanChunk`: split at the first star outside a character class. -/
def scanLoop : List Nat → Bool → List Nat × List Nat
  | [], _ => ([], [])
  | c :: pattern, inrange =>
    if c = Backslash then
      match pattern with
      | [] => ([c], [])
      | d :: pattern1 =>
        let r := scanLoop pattern1 inrange
        (c :: d :: r.1, r.2)
    else if c = LBracket then
      let r := scanLoop pattern true
      (c :: r.1, r.2)
    else if c = RBracket then
      let r := scanLoop pattern false
      (c :: r.1, r.2)
    else if c = Star ∧ inrange = false then
      ([], c :: pattern)
    else
      let r := scanLoop pattern inrange
      (c :: r.1, r.2)

/-- Go's `scanChunk`: the next segment of the pattern, a star-free string possibly
preceded by a star.  Returns `(star, chunk, rest)`. -/
def scanChunk (pattern : List Nat) : Bool × List Nat × List Nat :=
  let r := skipStars pattern false
  let q := scanLoop r.2 false
  (r.1, q.1, q.2)

/-- Go's `getEsc`: a possibly escaped rune of a character class and the chunk
after it; `none` is `ErrBadPattern`. -/
def getEsc : List Nat → Option (Nat × List Nat)
  | [] => none
  | c :: chunk =>
    if c = Dash ∨ c = RBracket then none
    else
      let chunk0 := if c = Backslash then chunk else c :: chunk
      if chunk0.isEmpty then none
      else
        let d := utf8.DecodeRuneInString chunk0
        if d.1 = utf8.RuneError ∧ d.2 = 1 then none
        else if (chunk0.drop d.2).isEmpty then none
        else some (d.1, chunk0.drop d.2)

/-- The range-parsing loop of a character class in `matchChunk`; `none` is
`ErrBadPattern`, otherwise the chunk after the closing bracket and whether `r`
lies in one of the ranges. -/
def classLoop (r : Nat) : Nat → List Nat → Nat → Bool → Option (List Nat × Bool)
  | 0, _, _, _ => none
  | fuel + 1, chunk, nrange, found =>
    if chunk.head? = some RBracket ∧ 0 < nrange then some (chunk.tail, found)
    else
      match getEsc chunk with
      | none => none
      | some (lo, chunk1) =>
        if chunk1.head? = some Dash then
          match getEsc chunk1.tail with
          | none => none
          | some (hi, chunk2) =>
            classLoop r fuel chunk2 (nrange + 1) (found || decide (lo ≤ r ∧ r ≤ hi))
        else
          classLoop r fuel chunk1 (nrange + 1) (found || decide (lo ≤ r ∧ r ≤ lo))

/-- The main loop of Go's `matchChunk`, with the flag `failed`.  Returns
`(rest, ok, err)`. -/
def matchChunkLoop (ErrBadPattern : ε) :
    Nat → List Nat → List Nat → Bool → List Nat × Bool × Option ε
  | 0, _, _, _ => ([], false, none)
  | fuel + 1, chunk, s, failed =>
    match chunk with
    | [] => if failed then ([], false, none) else (s, true, none)
    | c :: chunk1 =>
      let failed := failed || s.isEmpty
      if c = LBracket then
        let r : Nat := if failed then 0 else (utf8.DecodeRuneInString s).1
        let s := if failed then s else s.drop (utf8.DecodeRuneInString s).2
        let negated : Bool := decide (chunk1.head? = some Caret)
        let chunk2 := if negated then chunk1.tail else chunk1
        match classLoop r (chunk2.length + 1) chunk2 0 false with
        | none => ([], false, some ErrBadPattern)
        | some (chunk3, found) =>
          matchChunkLoop ErrBadPattern fuel chunk3 s (failed || (found == negated))
      else if c = Question then
        matchChunkLoop ErrBadPattern fuel chunk1
          (if failed then s else s.drop (utf8.DecodeRuneInString s).2)
          (failed || decide (s.head? = some Separator))
      else if c = Backslash then
        match chunk1 with
        | [] => ([], false, some ErrBadPattern)
        | d :: chunk2 =>
          matchChunkLoop ErrBadPattern fuel chunk2 (if failed then s else s.tail)
            (failed || decide (s.head? ≠ some d))
      else
        matchChunkLoop ErrBadPattern fuel chunk1 (if failed then s else s.tail)
          (failed || decide (s.head? ≠ some c))

/-- Go's `matchChunk`: does the chunk match the beginning of `s`?  If so, the
rest of `s` is returned. -/
def matchChunk (ErrBadPattern : ε) (chunk s : List Nat) : List Nat × Bool × Option ε :=
  matchChunkLoop ErrBadPattern (chunk.length + 1) chunk s false

/-- The loop of `Match` that looks for a match after skipping `i+1` bytes of the
name.  `some (Except.ok t)` is `continue Pattern` with `name = t`,
`some (Except.error e)` is `return false, e`, `none` is the end of the loop. -/
def starLoop (ErrBadPattern : ε) (chunk pattern : List Nat) :
    List Nat → Option (Except ε (List Nat))
  | [] => none
  | c :: name =>
    if c = Separator then none
    else
      match matchChunk ErrBadPattern chunk name with
      | (t, true, _) =>
        if pattern.isEmpty ∧ ¬ t.isEmpty then starLoop ErrBadPattern chunk pattern name
        else some (Except.ok t)
      | (_, false, some err) => some (Except.error err)
      | (_, false, none) => starLoop ErrBadPattern chunk pattern name

/-- The loop labelled `Pattern` of Go's `Match`. -/
def MatchLoop (ErrBadPattern : ε) : Nat → List Nat → List Nat → Bool × Option ε
  | 0, _, _ => (false, none)
  | fuel + 1, pattern, name =>
    if pattern.isEmpty then (name.isEmpty, none)
    else
      let r := scanChunk pattern
      let star := r.1
      let chunk := r.2.1
      let pattern := r.2.2
      if star ∧ chunk.isEmpty then (!(name.contains Separator), none)
      else
        match matchChunk ErrBadPattern chunk name with
        | (t, ok, err) =>
          if ok ∧ (t.isEmpty ∨ ¬ pattern.isEmpty) then MatchLoop ErrBadPattern fuel pattern t
          else
            match err with
            | some e => (false, some e)
            | none =>
              match (if star then starLoop ErrBadPattern chunk pattern name else none) with
              | some (Except.ok t1) => MatchLoop ErrBadPattern fuel pattern t1
              | some (Except.error e) => (false, some e)
              | none => (false, none)

/-- Go's `filepath.Match(pattern, name)`, returning `(matched, err)`. -/
def Match (ErrBadPattern : ε) (pattern name : String) : Bool × Option ε :=
  MatchLoop ErrBadPattern ((utf8.bytes pattern).length + 1) (utf8.bytes pattern)
    (utf8.bytes name)

end filepath

section Traverse

variable {σ ε υ ρ χ κ τ π φ : Type}

/-- Source lines 64-69: build the share URL, the share traverser and the
decorated processor for the listed share `v`, then run the nested traversal. -/
def visitShare (env : Collaborators σ ε υ ρ χ κ τ π φ) (t : fileAccountTraverser υ ρ χ κ)
    (processor : π) (filters : φ) (v : ShareItem) (s : σ) :
    Outcome σ ε (Call υ ρ χ κ τ π φ) :=
  let shareURL := env.NewShareURL t.accountURL v.Name
  let shareTraverser :=
    env.newFileTraverser shareURL t.p t.ctx true t.incrementEnumerationCounter
  let middlemanProcessor := env.initContainerDecorator v.Name processor
  let r := env.traverse shareTraverser middlemanProcessor filters s
  { err := r.1
    log := [Call.NewShareURL t.accountURL v.Name,
            Call.newFileTraverser shareURL t.p t.ctx true t.incrementEnumerationCounter,
            Call.initContainerDecorator v.Name processor,
            Call.traverse shareTraverser middlemanProcessor filters]
    state := r.2 }

/-- Source lines 52-74: the loop `for _, v := range resp.ShareItems`.  An outcome
with `err = some e` stands for `return e`; with `err = none` the loop ran through
all items. -/
def rangeShareItems (env : Collaborators σ ε υ ρ χ κ τ π φ)
    (t : fileAccountTraverser υ ρ χ κ) (processor : π) (filters : φ) :
    List ShareItem → σ → Outcome σ ε (Call υ ρ χ κ τ π φ)
  | [], s => { err := none, log := [], state := s }
  | v :: items, s =>
    if t.sharePattern ≠ "" then
      match env.Match t.sharePattern v.Name with
      | (_, some err) =>
        { err := some err, log := [Call.Match t.sharePattern v.Name], state := s }
      | (false, none) =>
        (rangeShareItems env t processor filters items s).after
          [Call.Match t.sharePattern v.Name]
      | (true, none) =>
        let o := visitShare env t processor filters v s
        match o.err with
        | some _ => o.after [Call.Match t.sharePattern v.Name]
        | none => (rangeShareItems env t processor filters items o.state).after
            (Call.Match t.sharePattern v.Name :: o.log)
    else
      let o := visitShare env t processor filters v s
      match o.err with
      | some _ => o
      | none => (rangeShareItems env t processor filters items o.state).after o.log

/-- Source lines 45-77: the loop `for marker.NotDone()`, started at `marker`.
The fuel bounds the number of iterations (page fetches); `none` means the fuel ran
out before the loop ended. -/
def traverseFrom (env : Collaborators σ ε υ ρ χ κ τ π φ)
    (t : fileAccountTraverser υ ρ χ κ) (processor : π) (filters : φ) :
    Nat → Marker → σ → Option (Outcome σ ε (Call υ ρ χ κ τ π φ))
  | fuel, marker, s =>
    if marker.NotDone then
      match fuel with
      | 0 => none
      | fuel + 1 =>
        match env.ListSharesSegment t.accountURL t.ctx marker s with
        | (Except.error err, s1) =>
          some { err := some err,
                 log := [Call.ListSharesSegment t.accountURL t.ctx marker], state := s1 }
        | (Except.ok resp, s1) =>
          let o := rangeShareItems env t processor filters resp.ShareItems s1
          match o.err with
          | some _ => some (o.after [Call.ListSharesSegment t.accountURL t.ctx marker])
          | none =>
            (traverseFrom env t processor filters fuel resp.NextMarker o.state).map
              (fun r => r.after (Call.ListSharesSegment t.accountURL t.ctx marker :: o.log))
    else
      some { err := none, log := [], state := s }

/-- The method `fileAccountTraverser.traverse` (source lines 43-80):
`marker := azfile.Marker{}` followed by the paging loop and `return nil`. -/
def fileAccountTraverser.traverse (env : Collaborators σ ε υ ρ χ κ τ π φ)
    (t : fileAccountTraverser υ ρ χ κ) (processor : π) (filters : φ) (fuel : Nat) (s : σ) :
    Option (Outcome σ ε (Call υ ρ χ κ τ π φ)) :=
  traverseFrom env t processor filters fuel { Val := none } s

/-- The constructor `newFileAccountTraverser` (source lines 82-92).  The URL
parser `azfile.NewFileURLParts` and the printer `FileURLParts.URL` are
parameters. -/
def newFileAccountTraverser {α : Type} (NewFileURLParts : υ → FileURLParts α)
    (URL : FileURLParts α → υ) (rawURL : υ) (p : ρ) (ctx : χ)
    (incrementEnumerationCounter : κ) : fileAccountTraverser υ ρ χ κ :=
  let fURLparts := NewFileURLParts rawURL
  let sPattern := fURLparts.ShareName
  let fURLparts :=
    if fURLparts.ShareName ≠ "" then { fURLparts with ShareName := "" } else fURLparts
  { p := p, ctx := ctx, incrementEnumerationCounter := incrementEnumerationCounter,
    accountURL := NewServiceURL (URL fURLparts) p, sharePattern := sPattern }

end Traverse

/-! ## Observables of a call log and the logs of failure-free runs -/

section Observables

variable {σ ε υ ρ χ κ τ π φ : Type}

/-- Is the call part of the visit of a share (source lines 64-69)? -/
def Call.isVisit : Call υ ρ χ κ τ π φ → Bool
  | Call.ListSharesSegment _ _ _ => false
  | Call.Match _ _ => false
  | Call.NewShareURL _ _ => true
  | Call.newFileTraverser _ _ _ _ _ => true
  | Call.initContainerDecorator _ _ => true
  | Call.traverse _ _ _ => true

/-- The marker passed to a listing call. -/
def Call.marker? : Call υ ρ χ κ τ π φ → Option Marker
  | Call.ListSharesSegment _ _ m => some m
  | _ => none

/-- The arguments of a call to the glob matcher. -/
def Call.matchArgs? : Call υ ρ χ κ τ π φ → Option (String × String)
  | Call.Match pattern name => some (pattern, name)
  | _ => none

/-- The share name for which a share URL is built. -/
def Call.shareName? : Call υ ρ χ κ τ π φ → Option String
  | Call.NewShareURL _ name => some name
  | _ => none

/-- The processor handed to a nested traversal. -/
def Call.processor? : Call υ ρ χ κ τ π φ → Option π
  | Call.traverse _ processor _ => some processor
  | _ => none

/-- The markers of the page fetches of a log, in order. -/
def fetches (log : List (Call υ ρ χ κ τ π φ)) : List Marker := log.filterMap Call.marker?

/-- The consultations of the glob matcher in a log, in order. -/
def matchCalls (log : List (Call υ ρ χ κ τ π φ)) : List (String × String) :=
  log.filterMap Call.matchArgs?

/-- The calls of a log that belong to share visits, in order. -/
def visits (log : List (Call υ ρ χ κ τ π φ)) : List (Call υ ρ χ κ τ π φ) :=
  log.filter Call.isVisit

/-- The names of the visited shares of a log, in order. -/
def visitedNames (log : List (Call υ ρ χ κ τ π φ)) : List String :=
  log.filterMap Call.shareName?

/-- The processors handed to the nested traversals of a log, in order. -/
def handedProcessors (log : List (Call υ ρ χ κ τ π φ)) : List π :=
  log.filterMap Call.processor?

/-- The share traverser the account traverser builds for the share called `name`. -/
def shareTraverserFor (env : Collaborators σ ε υ ρ χ κ τ π φ)
    (t : fileAccountTraverser υ ρ χ κ) (name : String) : τ :=
  env.newFileTraverser (env.NewShareURL t.accountURL name) t.p t.ctx true
    t.incrementEnumerationCounter

/-- The four calls of a complete visit of the share called `name`: its URL is
built from the account URL and `name`, a recursive share traverser is created for
that URL, the caller's processor is decorated with `name`, and the share traverser
is run with the decorated processor and the caller's filters. -/
def visitLog (env : Collaborators σ ε υ ρ χ κ τ π φ) (t : fileAccountTraverser υ ρ χ κ)
    (processor : π) (filters : φ) (name : String) : List (Call υ ρ χ κ τ π φ) :=
  [Call.NewShareURL t.accountURL name,
   Call.newFileTraverser (env.NewShareURL t.accountURL name) t.p t.ctx true
     t.incrementEnumerationCounter,
   Call.initContainerDecorator name processor,
   Call.traverse (shareTraverserFor env t name) (env.initContainerDecorator name processor)
     filters]

/-- The pattern test of source lines 54-62, for a matcher call that reports no
error: the pattern is empty or the matcher says yes. -/
def passes (env : Collaborators σ ε υ ρ χ κ τ π φ) (t : fileAccountTraverser υ ρ χ κ)
    (v : ShareItem) : Bool :=
  decide (t.sharePattern = "") || (env.Match t.sharePattern v.Name).1

/-- The matcher is consulted for `v` exactly when the pattern is not empty. -/
def matchLog (t : fileAccountTraverser υ ρ χ κ) (v : ShareItem) :
    List (Call υ ρ χ κ τ π φ) :=
  if t.sharePattern ≠ "" then [Call.Match t.sharePattern v.Name] else []

/-- The log of a failure-free pass over the items of one page. -/
def itemsLog (env : Collaborators σ ε υ ρ χ κ τ π φ) (t : fileAccountTraverser υ ρ χ κ)
    (processor : π) (filters : φ) (items : List ShareItem) : List (Call υ ρ χ κ τ π φ) :=
  items.flatMap (fun v =>
    matchLog t v ++ (if passes env t v then visitLog env t processor filters v.Name else []))

/-- The log of a failure-free pass over successive pages, the first fetched with
marker `m`. -/
def pagesLog (env : Collaborators σ ε υ ρ χ κ τ π φ) (t : fileAccountTraverser υ ρ χ κ)
    (processor : π) (filters : φ) :
    Marker → List ListSharesResponse → List (Call υ ρ χ κ τ π φ)
  | _, [] => []
  | m, page :: pages =>
    Call.ListSharesSegment t.accountURL t.ctx m ::
      (itemsLog env t processor filters page.ShareItems ++
        pagesLog env t processor filters page.NextMarker pages)

/-- Successive fetches starting from marker `m` return the pages `pages`, whatever
the state of the world: `m` is not done and the fetch with `m` returns the first
page, whose `NextMarker` serves the remaining pages in the same way. -/
def Serves (env : Collaborators σ ε υ ρ χ κ τ π φ) (t : fileAccountTraverser υ ρ χ κ) :
    Marker → List ListSharesResponse → Prop
  | _, [] => True
  | m, page :: pages =>
    m.NotDone = true ∧
    (∀ s, (env.ListSharesSegment t.accountURL t.ctx m s).1 = Except.ok page) ∧
    Serves env t page.NextMarker pages

/-- The marker in hand after the pages `pages` have been fetched starting from `m`. -/
def lastMarker : Marker → List ListSharesResponse → Marker
  | m, [] => m
  | _, page :: pages => lastMarker page.NextMarker pages

/-- All listed shares of a sequence of pages: pages concatenated in fetch order,
items in page order. -/
def listed (pages : List ListSharesResponse) : List ShareItem :=
  pages.flatMap ListSharesResponse.ShareItems

/-- The matcher reports no error on `v` (vacuous for the empty pattern, for which
it is not consulted). -/
def MatchSucceeds (env : Collaborators σ ε υ ρ χ κ τ π φ) (t : fileAccountTraverser υ ρ χ κ)
    (v : ShareItem) : Prop :=
  t.sharePattern ≠ "" → (env.Match t.sharePattern v.Name).2 = none

instance MatchSucceeds.decidable [DecidableEq ε] (env : Collaborators σ ε υ ρ χ κ τ π φ)
    (t : fileAccountTraverser υ ρ χ κ) (v : ShareItem) : Decidable (MatchSucceeds env t v) :=
  inferInstanceAs (Decidable (t.sharePattern ≠ "" → (env.Match t.sharePattern v.Name).2 = none))

/-- The nested traversal of the share `v` returns `r`, whatever the state of the
world. -/
def NestedReturns (env : Collaborators σ ε υ ρ χ κ τ π φ) (t : fileAccountTraverser υ ρ χ κ)
    (processor : π) (filters : φ) (v : ShareItem) (r : Option ε) : Prop :=
  ∀ s, (env.traverse (shareTraverserFor env t v.Name)
    (env.initContainerDecorator v.Name processor) filters s).1 = r

/-- The share called `name` is admitted by the pattern test of source lines 54-62:
the pattern is empty, or the matcher reports a match and no error. -/
def Admitted (env : Collaborators σ ε υ ρ χ κ τ π φ) (t : fileAccountTraverser υ ρ χ κ)
    (name : String) : Prop :=
  t.sharePattern = "" ∨ env.Match t.sharePattern name = (true, none)

/-- The shape of the log of any run: the visit calls are complete visits of the
visited names, every nested traversal gets the decorator built for its own share,
every visited name was admitted by the pattern test, and the matcher is not
consulted for the empty pattern. -/
def LogInv (env : Collaborators σ ε υ ρ χ κ τ π φ) (t : fileAccountTraverser υ ρ χ κ)
    (processor : π) (filters : φ) (log : List (Call υ ρ χ κ τ π φ)) : Prop :=
  visits log = (visitedNames log).flatMap (visitLog env t processor filters) ∧
  handedProcessors log =
    (visitedNames log).map (fun c => env.initContainerDecorator c processor) ∧
  (∀ n ∈ visitedNames log, Admitted env t n) ∧
  (t.sharePattern = "" → matchCalls log = [])

end Observables

/-! ## Concrete scenarios

A small test double for the collaborators.  The world state is the number of
objects enumerated so far, errors are strings, URLs are strings, a share traverser
is identified with the URL it was built for, and a processor is the list of share
names it has been decorated with (innermost last). -/

namespace Scenario

/-- The error `filepath.ErrBadPattern`. -/
def ErrBadPattern : String := "syntax error in pattern"

/-- A listing service that answers from a table keyed by marker. -/
def serve (table : List (Marker × Except String ListSharesResponse)) (m : Marker) :
    Except String ListSharesResponse :=
  match table.lookup m with
  | some r => r
  | none => Except.error "unknown marker"

/-- The test double: pages come from `table`, the matcher is the model of Go's
`filepath.Match`, the nested traversal of a share enumerates two objects and fails
exactly for the share URLs in `failing`. -/
def env (table : List (Marker × Except String ListSharesResponse)) (failing : List String) :
    Collaborators Nat String String Unit Unit Unit String (List String) Unit where
  ListSharesSegment := fun _ _ m s => (serve table m, s)
  Match := filepath.Match ErrBadPattern
  NewShareURL := fun accountURL name => accountURL.url ++ "/" ++ name
  newFileTraverser := fun shareURL _ _ _ _ => shareURL
  initContainerDecorator := fun name processor => name :: processor
  traverse := fun shareTraverser _ _ s =>
    (if shareTraverser ∈ failing then some "share traversal failed" else none, s + 2)

/-- An account traverser with the given share pattern. -/
def account (pattern : String) : fileAccountTraverser String Unit Unit Unit where
  accountURL := NewServiceURL "https://acct.file.core.windows.net" ()
  p := ()
  ctx := ()
  sharePattern := pattern
  incrementEnumerationCounter := ()

/-- First page of the account with shares logs, images, log-archive. -/
def logsPage1 : ListSharesResponse :=
  { ShareItems := [⟨"logs"⟩, ⟨"images"⟩], NextMarker := ⟨some "page2"⟩ }

/-- Second and last page of that account. -/
def logsPage2 : ListSharesResponse :=
  { ShareItems := [⟨"log-archive"⟩], NextMarker := ⟨some ""⟩ }

/-- The account with shares logs, images, log-archive, listed in two pages. -/
def logsTable : List (Marker × Except String ListSharesResponse) :=
  [(⟨none⟩, Except.ok logsPage1), (⟨some "page2"⟩, Except.ok logsPage2)]

/-- The same account, but the fetch of the second page fails. -/
def brokenTable : List (Marker × Except String ListSharesResponse) :=
  [(⟨none⟩, Except.ok logsPage1), (⟨some "page2"⟩, Except.error "listing failed")]

/-- The only page of the account with shares a, b. -/
def abPage : ListSharesResponse :=
  { ShareItems := [⟨"a"⟩, ⟨"b"⟩], NextMarker := ⟨some ""⟩ }

/-- The account with shares a, b. -/
def abTable : List (Marker × Except String ListSharesResponse) :=
  [(⟨none⟩, Except.ok abPage)]

/-- An empty page followed by a last empty page. -/
def emptyPages : List ListSharesResponse :=
  [{ ShareItems := [], NextMarker := ⟨some "more"⟩ }, { ShareItems := [], NextMarker := ⟨some ""⟩ }]

/-- An account without shares, listed in two empty pages. -/
def emptyTable : List (Marker × Except String ListSharesResponse) :=
  [(⟨none⟩, Except.ok { ShareItems := [], NextMarker := ⟨some "more"⟩ }),
   (⟨some "more"⟩, Except.ok { ShareItems := [], NextMarker := ⟨some ""⟩ })]

/-- The run of `traverse` in a scenario, with the caller's processor `[]`, from
the state in which nothing has been enumerated. -/
def run (table : List (Marker × Except String ListSharesResponse)) (failing : List String)
    (pattern : String) (fuel : Nat) :
    Option (Outcome Nat String (Call String Unit Unit Unit String (List String) Unit)) :=
  (account pattern).traverse (env table failing) [] () fuel 0

/-- The outcome of a run that ended within its fuel. -/
def outcome (table : List (Marker × Except String ListSharesResponse))
    (failing : List String) (pattern : String) (fuel : Nat) :
    Outcome Nat String (Call String Unit Unit Unit String (List String) Unit) :=
  (run table failing pattern fuel).getD { err := none, log := [], state := 0 }

/-- The only page of the account whose single share is images. -/
def imagesPage : ListSharesResponse :=
  { ShareItems := [⟨"images"⟩], NextMarker := ⟨some ""⟩ }

/-- The account whose single share is images. -/
def imagesTable : List (Marker × Except String ListSharesResponse) :=
  [(⟨none⟩, Except.ok imagesPage)]

/-- A test double whose world state is the list of deliveries made so far, each the
processor that was invoked together with the object it was invoked on.  The nested
traversal of a share discovers one object, named after the share URL, and invokes
on it the processor it was handed. -/
def deliveryEnv (table : List (Marker × Except String ListSharesResponse)) :
    Collaborators (List (List String × String)) String String Unit Unit Unit String
      (List String) Unit where
  ListSharesSegment := fun _ _ m s => (serve table m, s)
  Match := filepath.Match ErrBadPattern
  NewShareURL := fun accountURL name => accountURL.url ++ "/" ++ name
  newFileTraverser := fun shareURL _ _ _ _ => shareURL
  initContainerDecorator := fun name processor => name :: processor
  traverse := fun shareTraverser processor _ s =>
    (none, s ++ [(processor, shareTraverser ++ "/file")])

/-- The outcome of the run of `traverse` over `deliveryEnv`, with the caller's
processor `[]`, from the state without deliveries. -/
def deliveryOutcome (table : List (Marker × Except String ListSharesResponse))
    (pattern : String) (fuel : Nat) :
    Outcome (List (List String × String)) String
      (Call String Unit Unit Unit String (List String) Unit) :=
  ((account pattern).traverse (deliveryEnv table) [] () fuel []).getD
    { err := none, log := [], state := [] }

end Scenario

/-! ## Lemmas on the two loops -/

section Lemmas

variable {σ ε υ ρ χ κ τ π φ : Type}

theorem visitShare_log (env : Collaborators σ ε υ ρ χ κ τ π φ)
    (t : fileAccountTraverser υ ρ χ κ) (processor : π) (filters : φ) (v : ShareItem) (s : σ) :
    (visitShare env t processor filters v s).log = visitLog env t processor filters v.Name :=
  rfl

theorem visitShare_err (env : Collaborators σ ε υ ρ χ κ τ π φ)
    (t : fileAccountTraverser υ ρ χ κ) (processor : π) (filters : φ) (v : ShareItem) (s : σ) :
    (visitShare env t processor filters v s).err =
      (env.traverse (shareTraverserFor env t v.Name)
        (env.initContainerDecorator v.Name processor) filters s).1 :=
  rfl

theorem visitShare_state (env : Collaborators σ ε υ ρ χ κ τ π φ)
    (t : fileAccountTraverser υ ρ χ κ) (processor : π) (filters : φ) (v : ShareItem) (s : σ) :
    (visitShare env t processor filters v s).state =
      (env.traverse (shareTraverserFor env t v.Name)
        (env.initContainerDecorator v.Name processor) filters s).2 :=
  rfl

@[simp] theorem Outcome.after_err {C : Type} (o : Outcome σ ε C) (l : List C) :
    (o.after l).err = o.err := rfl

@[simp] theorem Outcome.after_log {C : Type} (o : Outcome σ ε C) (l : List C) :
    (o.after l).log = l ++ o.log := rfl

@[simp] theorem Outcome.after_state {C : Type} (o : Outcome σ ε C) (l : List C) :
    (o.after l).state = o.state := rfl

theorem Outcome.after_after {C : Type} (o : Outcome σ ε C) (l₁ l₂ : List C) :
    (o.after l₁).after l₂ = o.after (l₂ ++ l₁) := by
  simp [Outcome.after]

/-- One step of the item loop, as a case analysis on the pattern test. -/
theorem rangeShareItems_cons (env : Collaborators σ ε υ ρ χ κ τ π φ)
    (t : fileAccountTraverser υ ρ χ κ) (processor : π) (filters : φ)
    (v : ShareItem) (items : List ShareItem) (s : σ) :
    rangeShareItems env t processor filters (v :: items) s =
      if t.sharePattern ≠ "" ∧ (env.Match t.sharePattern v.Name).2.isSome then
        { err := (env.Match t.sharePattern v.Name).2,
          log := [Call.Match t.sharePattern v.Name], state := s }
      else if passes env t v then
        if (visitShare env t processor filters v s).err.isSome then
          (visitShare env t processor filters v s).after (matchLog t v)
        else
          (rangeShareItems env t processor filters items
            (visitShare env t processor filters v s).state).after
            (matchLog t v ++ visitLog env t processor filters v.Name)
      else
        (rangeShareItems env t processor filters items s).after (matchLog t v) := by
  by_cases hp : t.sharePattern = ""
  · simp only [rangeShareItems, hp, passes, matchLog, ne_eq, not_true_eq_false, if_false,
      false_and, decide_True, Bool.true_or, if_true]
    cases h : (visitShare env t processor filters v s).err with
    | none => simp [visitShare_log]
    | some e => simp [Outcome.after]
  · simp only [rangeShareItems, hp, passes, matchLog, ne_eq, not_false_eq_true, if_true,
      true_and, decide_False, Bool.false_or]
    rcases hm : env.Match t.sharePattern v.Name with ⟨ok, _ | e⟩
    · cases ok with
      | false => simp
      | true =>
        cases h : (visitShare env t processor filters v s).err with
        | none => simp [visitShare_log]
        | some e => simp
    · simp

/-- A failure-free pass over the items `items₁` leaves the loop at the items that
follow, with the failure-free log in front. -/
theorem rangeShareItems_append_ok (env : Collaborators σ ε υ ρ χ κ τ π φ)
    (t : fileAccountTraverser υ ρ χ κ) (processor : π) (filters : φ)
    (items₁ items₂ : List ShareItem)
    (hM : ∀ v ∈ items₁, MatchSucceeds env t v)
    (hN : ∀ v ∈ items₁, passes env t v = true → NestedReturns env t processor filters v none)
    (s : σ) :
    ∃ s1, rangeShareItems env t processor filters (items₁ ++ items₂) s =
      (rangeShareItems env t processor filters items₂ s1).after
        (itemsLog env t processor filters items₁) := by
  induction items₁ generalizing s with
  | nil => exact ⟨s, by simp [itemsLog, Outcome.after]⟩
  | cons v items ih =>
    have hMv : ¬ (t.sharePattern ≠ "" ∧ (env.Match t.sharePattern v.Name).2.isSome = true) := by
      rintro ⟨hp, he⟩
      have := hM v (List.mem_cons_self _ _) hp
      simp [this] at he
    have ihM : ∀ w ∈ items, MatchSucceeds env t w :=
      fun w hw => hM w (List.mem_cons_of_mem _ hw)
    have ihN : ∀ w ∈ items, passes env t w = true →
        NestedReturns env t processor filters w none :=
      fun w hw => hN w (List.mem_cons_of_mem _ hw)
    rw [List.cons_append, rangeShareItems_cons, if_neg hMv]
    by_cases hp : passes env t v = true
    · have hv := hN v (List.mem_cons_self _ _) hp s
      have he : (visitShare env t processor filters v s).err = none := by
        rw [visitShare_err]; exact hv
      obtain ⟨s1, h1⟩ := ih ihM ihN (visitShare env t processor filters v s).state
      refine ⟨s1, ?_⟩
      simp only [hp, if_true, he, Option.isSome_none, Bool.false_eq_true, if_false, h1,
        Outcome.after_after, itemsLog, List.flatMap_cons, List.append_assoc]
    · obtain ⟨s1, h1⟩ := ih ihM ihN s
      refine ⟨s1, ?_⟩
      simp only [hp, if_false, h1, Outcome.after_after, itemsLog, List.flatMap_cons,
        List.append_nil, Bool.false_eq_true]

/-- A failure-free pass over the items of a page. -/
theorem rangeShareItems_ok (env : Collaborators σ ε υ ρ χ κ τ π φ)
    (t : fileAccountTraverser υ ρ χ κ) (processor : π) (filters : φ)
    (items : List ShareItem)
    (hM : ∀ v ∈ items, MatchSucceeds env t v)
    (hN : ∀ v ∈ items, passes env t v = true → NestedReturns env t processor filters v none)
    (s : σ) :
    ∃ s1, rangeShareItems env t processor filters items s =
      { err := none, log := itemsLog env t processor filters items, state := s1 } := by
  obtain ⟨s1, h⟩ := rangeShareItems_append_ok env t processor filters items [] hM hN s
  refine ⟨s1, ?_⟩
  rw [List.append_nil] at h
  rw [h]
  simp [rangeShareItems, Outcome.after]

theorem traverseFrom_done (env : Collaborators σ ε υ ρ χ κ τ π φ)
    (t : fileAccountTraverser υ ρ χ κ) (processor : π) (filters : φ)
    (fuel : Nat) (m : Marker) (s : σ) (hm : m.NotDone = false) :
    traverseFrom env t processor filters fuel m s = some { err := none, log := [], state := s } := by
  unfold traverseFrom
  simp [hm]

theorem traverseFrom_error (env : Collaborators σ ε υ ρ χ κ τ π φ)
    (t : fileAccountTraverser υ ρ χ κ) (processor : π) (filters : φ)
    (fuel : Nat) (m : Marker) (s : σ) (e : ε) (hm : m.NotDone = true)
    (hf : (env.ListSharesSegment t.accountURL t.ctx m s).1 = Except.error e) :
    traverseFrom env t processor filters (fuel + 1) m s =
      some { err := some e, log := [Call.ListSharesSegment t.accountURL t.ctx m],
             state := (env.ListSharesSegment t.accountURL t.ctx m s).2 } := by
  unfold traverseFrom
  rcases h : env.ListSharesSegment t.accountURL t.ctx m s with ⟨r, s1⟩
  rw [h] at hf
  simp only at hf
  subst hf
  simp [hm]

theorem traverseFrom_page (env : Collaborators σ ε υ ρ χ κ τ π φ)
    (t : fileAccountTraverser υ ρ χ κ) (processor : π) (filters : φ)
    (fuel : Nat) (m : Marker) (s : σ) (resp : ListSharesResponse) (hm : m.NotDone = true)
    (hf : (env.ListSharesSegment t.accountURL t.ctx m s).1 = Except.ok resp) :
    traverseFrom env t processor filters (fuel + 1) m s =
      if (rangeShareItems env t processor filters resp.ShareItems
            (env.ListSharesSegment t.accountURL t.ctx m s).2).err.isSome then
        some ((rangeShareItems env t processor filters resp.ShareItems
            (env.ListSharesSegment t.accountURL t.ctx m s).2).after
          [Call.ListSharesSegment t.accountURL t.ctx m])
      else
        (traverseFrom env t processor filters fuel resp.NextMarker
            (rangeShareItems env t processor filters resp.ShareItems
              (env.ListSharesSegment t.accountURL t.ctx m s).2).state).map
          (fun r => r.after (Call.ListSharesSegment t.accountURL t.ctx m ::
            (rangeShareItems env t processor filters resp.ShareItems
              (env.ListSharesSegment t.accountURL t.ctx m s).2).log)) := by
  conv_lhs => unfold traverseFrom
  rcases h : env.ListSharesSegment t.accountURL t.ctx m s with ⟨r, s1⟩
  rw [h] at hf
  simp only at hf
  subst hf
  simp only [hm, if_true]
  cases h2 : (rangeShareItems env t processor filters resp.ShareItems s1).err with
  | none => simp
  | some e => simp

theorem Outcome.after_nil {C : Type} (o : Outcome σ ε C) : o.after [] = o := by
  cases o; rfl

/-- A failure-free pass over the pages `pages` leaves the paging loop at the marker
that follows them, with the failure-free log in front. -/
theorem traverseFrom_pages_ok (env : Collaborators σ ε υ ρ χ κ τ π φ)
    (t : fileAccountTraverser υ ρ χ κ) (processor : π) (filters : φ)
    (pages : List ListSharesResponse) (m : Marker)
    (hS : Serves env t m pages)
    (hM : ∀ v ∈ listed pages, MatchSucceeds env t v)
    (hN : ∀ v ∈ listed pages, passes env t v = true →
      NestedReturns env t processor filters v none)
    (fuel : Nat) (s : σ) :
    ∃ s1, traverseFrom env t processor filters (pages.length + fuel) m s =
      (traverseFrom env t processor filters fuel (lastMarker m pages) s1).map
        (fun r => r.after (pagesLog env t processor filters m pages)) := by
  induction pages generalizing m s with
  | nil =>
    refine ⟨s, ?_⟩
    simp [lastMarker, pagesLog, Outcome.after_nil]
  | cons page pages ih =>
    obtain ⟨hm, hf, hS1⟩ := hS
    have hMp : ∀ v ∈ page.ShareItems, MatchSucceeds env t v :=
      fun v hv => hM v (by simp only [listed, List.flatMap_cons, List.mem_append]; exact Or.inl hv)
    have hNp : ∀ v ∈ page.ShareItems, passes env t v = true →
        NestedReturns env t processor filters v none :=
      fun v hv => hN v (by simp only [listed, List.flatMap_cons, List.mem_append]; exact Or.inl hv)
    have hMr : ∀ v ∈ listed pages, MatchSucceeds env t v :=
      fun v hv => hM v (by
        simp only [listed, List.flatMap_cons, List.mem_append]; exact Or.inr hv)
    have hNr : ∀ v ∈ listed pages, passes env t v = true →
        NestedReturns env t processor filters v none :=
      fun v hv => hN v (by
        simp only [listed, List.flatMap_cons, List.mem_append]; exact Or.inr hv)
    obtain ⟨s2, h2⟩ := rangeShareItems_ok env t processor filters page.ShareItems hMp hNp
      (env.ListSharesSegment t.accountURL t.ctx m s).2
    obtain ⟨s1, h1⟩ := ih page.NextMarker hS1 hMr hNr s2
    refine ⟨s1, ?_⟩
    have hlen : (page :: pages).length + fuel = (pages.length + fuel) + 1 := by
      simp only [List.length_cons]; omega
    rw [hlen, traverseFrom_page env t processor filters _ m s page hm (hf s), h2]
    simp only [Option.isSome_none, Bool.false_eq_true, if_false, h1, Option.map_map,
      lastMarker, pagesLog]
    congr 1
    funext r
    simp [Outcome.after]

/-! ### Observables of the failure-free logs -/

theorem fetches_append (a b : List (Call υ ρ χ κ τ π φ)) :
    fetches (a ++ b) = fetches a ++ fetches b := by
  simp [fetches]

theorem matchCalls_append (a b : List (Call υ ρ χ κ τ π φ)) :
    matchCalls (a ++ b) = matchCalls a ++ matchCalls b := by
  simp [matchCalls]

theorem visits_append (a b : List (Call υ ρ χ κ τ π φ)) :
    visits (a ++ b) = visits a ++ visits b := by
  simp [visits]

theorem visitedNames_append (a b : List (Call υ ρ χ κ τ π φ)) :
    visitedNames (a ++ b) = visitedNames a ++ visitedNames b := by
  simp [visitedNames]

theorem handedProcessors_append (a b : List (Call υ ρ χ κ τ π φ)) :
    handedProcessors (a ++ b) = handedProcessors a ++ handedProcessors b := by
  simp [handedProcessors]

theorem fetches_matchLog (t : fileAccountTraverser υ ρ χ κ) (v : ShareItem) :
    fetches (matchLog t v : List (Call υ ρ χ κ τ π φ)) = [] := by
  unfold matchLog; split <;> rfl

theorem visits_matchLog (t : fileAccountTraverser υ ρ χ κ) (v : ShareItem) :
    visits (matchLog t v : List (Call υ ρ χ κ τ π φ)) = [] := by
  unfold matchLog; split <;> rfl

theorem visitedNames_matchLog (t : fileAccountTraverser υ ρ χ κ) (v : ShareItem) :
    visitedNames (matchLog t v : List (Call υ ρ χ κ τ π φ)) = [] := by
  unfold matchLog; split <;> rfl

theorem handedProcessors_matchLog (t : fileAccountTraverser υ ρ χ κ) (v : ShareItem) :
    handedProcessors (matchLog t v : List (Call υ ρ χ κ τ π φ)) = [] := by
  unfold matchLog; split <;> rfl

theorem matchCalls_matchLog_empty (t : fileAccountTraverser υ ρ χ κ) (v : ShareItem)
    (hp : t.sharePattern = "") :
    matchCalls (matchLog t v : List (Call υ ρ χ κ τ π φ)) = [] := by
  simp [matchLog, hp, matchCalls]

theorem fetches_visitLog (env : Collaborators σ ε υ ρ χ κ τ π φ)
    (t : fileAccountTraverser υ ρ χ κ) (processor : π) (filters : φ) (name : String) :
    fetches (visitLog env t processor filters name) = [] := rfl

theorem matchCalls_visitLog (env : Collaborators σ ε υ ρ χ κ τ π φ)
    (t : fileAccountTraverser υ ρ χ κ) (processor : π) (filters : φ) (name : String) :
    matchCalls (visitLog env t processor filters name) = [] := rfl

theorem visits_visitLog (env : Collaborators σ ε υ ρ χ κ τ π φ)
    (t : fileAccountTraverser υ ρ χ κ) (processor : π) (filters : φ) (name : String) :
    visits (visitLog env t processor filters name) = visitLog env t processor filters name :=
  rfl

theorem visitedNames_visitLog (env : Collaborators σ ε υ ρ χ κ τ π φ)
    (t : fileAccountTraverser υ ρ χ κ) (processor : π) (filters : φ) (name : String) :
    visitedNames (visitLog env t processor filters name) = [name] := rfl

theorem handedProcessors_visitLog (env : Collaborators σ ε υ ρ χ κ τ π φ)
    (t : fileAccountTraverser υ ρ χ κ) (processor : π) (filters : φ) (name : String) :
    handedProcessors (visitLog env t processor filters name) =
      [env.initContainerDecorator name processor] := rfl

theorem fetches_itemsLog (env : Collaborators σ ε υ ρ χ κ τ π φ)
    (t : fileAccountTraverser υ ρ χ κ) (processor : π) (filters : φ)
    (items : List ShareItem) :
    fetches (itemsLog env t processor filters items) = [] := by
  induction items with
  | nil => rfl
  | cons v items ih =>
    simp only [itemsLog, List.flatMap_cons] at ih ⊢
    rw [fetches_append, fetches_append, ih, fetches_matchLog]
    split
    · rw [fetches_visitLog]; rfl
    · rfl

theorem visits_itemsLog (env : Collaborators σ ε υ ρ χ κ τ π φ)
    (t : fileAccountTraverser υ ρ χ κ) (processor : π) (filters : φ)
    (items : List ShareItem) :
    visits (itemsLog env t processor filters items) =
      (items.filter (passes env t)).flatMap
        (fun v => visitLog env t processor filters v.Name) := by
  induction items with
  | nil => rfl
  | cons v items ih =>
    simp only [itemsLog, List.flatMap_cons] at ih ⊢
    rw [visits_append, visits_append, ih, visits_matchLog]
    by_cases hp : passes env t v = true
    · simp [hp, visits_visitLog, List.filter_cons]
    · simp [hp, visits, List.filter_cons]

theorem visitedNames_itemsLog (env : Collaborators σ ε υ ρ χ κ τ π φ)
    (t : fileAccountTraverser υ ρ χ κ) (processor : π) (filters : φ)
    (items : List ShareItem) :
    visitedNames (itemsLog env t processor filters items) =
      (items.filter (passes env t)).map ShareItem.Name := by
  induction items with
  | nil => rfl
  | cons v items ih =>
    simp only [itemsLog, List.flatMap_cons] at ih ⊢
    rw [visitedNames_append, visitedNames_append, ih, visitedNames_matchLog]
    by_cases hp : passes env t v = true
    · simp [hp, visitedNames_visitLog, List.filter_cons]
    · simp [hp, visitedNames, List.filter_cons]

theorem fetches_pagesLog (env : Collaborators σ ε υ ρ χ κ τ π φ)
    (t : fileAccountTraverser υ ρ χ κ) (processor : π) (filters : φ)
    (pages : List ListSharesResponse) (m : Marker) :
    fetches (pagesLog env t processor filters m pages) =
      (m :: pages.map ListSharesResponse.NextMarker).dropLast := by
  induction pages generalizing m with
  | nil => rfl
  | cons page pages ih =>
    have h : fetches (pagesLog env t processor filters m (page :: pages)) =
        m :: fetches (itemsLog env t processor filters page.ShareItems ++
          pagesLog env t processor filters page.NextMarker pages) := rfl
    rw [h, fetches_append, fetches_itemsLog, ih]
    simp [List.dropLast_cons₂]

theorem visits_pagesLog (env : Collaborators σ ε υ ρ χ κ τ π φ)
    (t : fileAccountTraverser υ ρ χ κ) (processor : π) (filters : φ)
    (pages : List ListSharesResponse) (m : Marker) :
    visits (pagesLog env t processor filters m pages) =
      ((listed pages).filter (passes env t)).flatMap
        (fun v => visitLog env t processor filters v.Name) := by
  induction pages generalizing m with
  | nil => rfl
  | cons page pages ih =>
    have h : visits (pagesLog env t processor filters m (page :: pages)) =
        visits (itemsLog env t processor filters page.ShareItems ++
          pagesLog env t processor filters page.NextMarker pages) := rfl
    rw [h, visits_append, visits_itemsLog, ih]
    simp [listed]

theorem visitedNames_pagesLog (env : Collaborators σ ε υ ρ χ κ τ π φ)
    (t : fileAccountTraverser υ ρ χ κ) (processor : π) (filters : φ)
    (pages : List ListSharesResponse) (m : Marker) :
    visitedNames (pagesLog env t processor filters m pages) =
      ((listed pages).filter (passes env t)).map ShareItem.Name := by
  induction pages generalizing m with
  | nil => rfl
  | cons page pages ih =>
    have h : visitedNames (pagesLog env t processor filters m (page :: pages)) =
        visitedNames (itemsLog env t processor filters page.ShareItems ++
          pagesLog env t processor filters page.NextMarker pages) := rfl
    rw [h, visitedNames_append, visitedNames_itemsLog, ih]
    simp [listed]

/-! ### Properties of every run -/

theorem LogInv_nil (env : Collaborators σ ε υ ρ χ κ τ π φ)
    (t : fileAccountTraverser υ ρ χ κ) (processor : π) (filters : φ) :
    LogInv env t processor filters [] :=
  ⟨rfl, rfl, fun _ h => by simp [visitedNames] at h, fun _ => rfl⟩

theorem LogInv_append (env : Collaborators σ ε υ ρ χ κ τ π φ)
    (t : fileAccountTraverser υ ρ χ κ) (processor : π) (filters : φ)
    (a b : List (Call υ ρ χ κ τ π φ))
    (ha : LogInv env t processor filters a) (hb : LogInv env t processor filters b) :
    LogInv env t processor filters (a ++ b) := by
  obtain ⟨a1, a2, a3, a4⟩ := ha
  obtain ⟨b1, b2, b3, b4⟩ := hb
  refine ⟨?_, ?_, ?_, ?_⟩
  · rw [visits_append, visitedNames_append, List.flatMap_append, a1, b1]
  · rw [handedProcessors_append, visitedNames_append, List.map_append, a2, b2]
  · intro n hn
    rw [visitedNames_append, List.mem_append] at hn
    exact hn.elim (a3 n) (b3 n)
  · intro hp
    rw [matchCalls_append, a4 hp, b4 hp]
    rfl

theorem LogInv_fetch (env : Collaborators σ ε υ ρ χ κ τ π φ)
    (t : fileAccountTraverser υ ρ χ κ) (processor : π) (filters : φ) (m : Marker) :
    LogInv env t processor filters [Call.ListSharesSegment t.accountURL t.ctx m] :=
  ⟨rfl, rfl, fun _ h => by simp [visitedNames, Call.shareName?] at h, fun _ => rfl⟩

theorem LogInv_matchLog (env : Collaborators σ ε υ ρ χ κ τ π φ)
    (t : fileAccountTraverser υ ρ χ κ) (processor : π) (filters : φ) (v : ShareItem) :
    LogInv env t processor filters (matchLog t v) := by
  refine ⟨?_, ?_, ?_, ?_⟩
  · rw [visits_matchLog, visitedNames_matchLog]; rfl
  · rw [handedProcessors_matchLog, visitedNames_matchLog]; rfl
  · intro n hn
    rw [visitedNames_matchLog] at hn
    simp at hn
  · intro hp
    exact matchCalls_matchLog_empty t v hp

theorem LogInv_visitLog (env : Collaborators σ ε υ ρ χ κ τ π φ)
    (t : fileAccountTraverser υ ρ χ κ) (processor : π) (filters : φ) (name : String)
    (h : Admitted env t name) :
    LogInv env t processor filters (visitLog env t processor filters name) := by
  refine ⟨?_, ?_, ?_, ?_⟩
  · rw [visits_visitLog, visitedNames_visitLog]; simp
  · rw [handedProcessors_visitLog, visitedNames_visitLog]; rfl
  · intro n hn
    rw [visitedNames_visitLog] at hn
    simp only [List.mem_singleton] at hn
    exact hn ▸ h
  · intro _
    exact matchCalls_visitLog env t processor filters name

/-- Past the error check of the matcher, an item that passes is admitted. -/
theorem Admitted_of_passes (env : Collaborators σ ε υ ρ χ κ τ π φ)
    (t : fileAccountTraverser υ ρ χ κ) (v : ShareItem)
    (hE : ¬ (t.sharePattern ≠ "" ∧ (env.Match t.sharePattern v.Name).2.isSome = true))
    (hp : passes env t v = true) : Admitted env t v.Name := by
  by_cases h : t.sharePattern = ""
  · exact Or.inl h
  · right
    have h2 : (env.Match t.sharePattern v.Name).2 = none := by
      cases h3 : (env.Match t.sharePattern v.Name).2 with
      | none => rfl
      | some e => exact absurd ⟨h, by simp [h3]⟩ hE
    have h1 : (env.Match t.sharePattern v.Name).1 = true := by
      simpa [passes, h] using hp
    exact Prod.ext h1 h2

theorem rangeShareItems_LogInv (env : Collaborators σ ε υ ρ χ κ τ π φ)
    (t : fileAccountTraverser υ ρ χ κ) (processor : π) (filters : φ)
    (items : List ShareItem) (s : σ) :
    LogInv env t processor filters (rangeShareItems env t processor filters items s).log := by
  induction items generalizing s with
  | nil => exact LogInv_nil env t processor filters
  | cons v items ih =>
    rw [rangeShareItems_cons]
    by_cases hE : t.sharePattern ≠ "" ∧ (env.Match t.sharePattern v.Name).2.isSome = true
    · rw [if_pos hE]
      have h := LogInv_matchLog env t processor filters v
      simpa [matchLog, hE.1] using h
    · rw [if_neg hE]
      by_cases hp : passes env t v = true
      · rw [if_pos hp]
        have hv := LogInv_visitLog env t processor filters v.Name
          (Admitted_of_passes env t v hE hp)
        have hm := LogInv_matchLog env t processor filters v
        split
        · rw [Outcome.after_log, visitShare_log]
          exact LogInv_append _ _ _ _ _ _ hm hv
        · rw [Outcome.after_log]
          exact LogInv_append _ _ _ _ _ _ (LogInv_append _ _ _ _ _ _ hm hv) (ih _)
      · rw [if_neg hp, Outcome.after_log]
        exact LogInv_append _ _ _ _ _ _ (LogInv_matchLog env t processor filters v) (ih _)

theorem traverseFrom_LogInv (env : Collaborators σ ε υ ρ χ κ τ π φ)
    (t : fileAccountTraverser υ ρ χ κ) (processor : π) (filters : φ)
    (fuel : Nat) (m : Marker) (s : σ) (out : Outcome σ ε (Call υ ρ χ κ τ π φ))
    (h : traverseFrom env t processor filters fuel m s = some out) :
    LogInv env t processor filters out.log := by
  induction fuel generalizing m s out with
  | zero =>
    by_cases hm : m.NotDone = true
    · unfold traverseFrom at h
      simp [hm] at h
    · rw [traverseFrom_done env t processor filters 0 m s (by simpa using hm)] at h
      cases h
      exact LogInv_nil env t processor filters
  | succ fuel ih =>
    by_cases hm : m.NotDone = true
    · cases hf : (env.ListSharesSegment t.accountURL t.ctx m s).1 with
      | error e =>
        rw [traverseFrom_error env t processor filters fuel m s e hm hf] at h
        cases h
        exact LogInv_fetch env t processor filters m
      | ok resp =>
        rw [traverseFrom_page env t processor filters fuel m s resp hm hf] at h
        have hi := rangeShareItems_LogInv env t processor filters resp.ShareItems
          (env.ListSharesSegment t.accountURL t.ctx m s).2
        split at h
        · cases h
          rw [Outcome.after_log]
          exact LogInv_append _ _ _ _ _ _ (LogInv_fetch env t processor filters m) hi
        · rw [Option.map_eq_some'] at h
          obtain ⟨r, hr, rfl⟩ := h
          rw [Outcome.after_log]
          exact LogInv_append _ _ _ _ _ _
            (LogInv_append _ _ _ _ [_] _ (LogInv_fetch env t processor filters m) hi)
            (ih _ _ _ hr)
    · rw [traverseFrom_done env t processor filters _ m s (by simpa using hm)] at h
      cases h
      exact LogInv_nil env t processor filters

/-- The enumeration count of every run: if listing calls leave the count alone and
the nested traversal by share traverser `tr` raises it by `k tr`, the count after a
run of the item loop is the count before plus the sum of `k` over the visited
shares. -/
theorem rangeShareItems_count (env : Collaborators σ ε υ ρ χ κ τ π φ)
    (t : fileAccountTraverser υ ρ χ κ) (processor : π) (filters : φ)
    (count : σ → Nat) (k : τ → Nat)
    (hNested : ∀ tr p f s, count (env.traverse tr p f s).2 = count s + k tr)
    (items : List ShareItem) (s : σ) :
    count (rangeShareItems env t processor filters items s).state =
      count s + ((visitedNames (rangeShareItems env t processor filters items s).log).map
        (fun n => k (shareTraverserFor env t n))).sum := by
  induction items generalizing s with
  | nil => simp [rangeShareItems, visitedNames]
  | cons v items ih =>
    rw [rangeShareItems_cons]
    have hv : count (visitShare env t processor filters v s).state =
        count s + k (shareTraverserFor env t v.Name) := by
      rw [visitShare_state]; exact hNested _ _ _ _
    split
    · simp [visitedNames, Call.shareName?]
    · split
      · split
        · rw [Outcome.after_state, Outcome.after_log, visitShare_log, visitedNames_append,
            visitedNames_matchLog, visitedNames_visitLog, hv]
          simp
        · rw [Outcome.after_state, Outcome.after_log, ih, hv, visitedNames_append,
            visitedNames_append, visitedNames_matchLog, visitedNames_visitLog]
          simp [Nat.add_assoc]
      · rw [Outcome.after_state, Outcome.after_log, ih, visitedNames_append,
          visitedNames_matchLog]
        simp

theorem traverseFrom_count (env : Collaborators σ ε υ ρ χ κ τ π φ)
    (t : fileAccountTraverser υ ρ χ κ) (processor : π) (filters : φ)
    (count : σ → Nat) (k : τ → Nat)
    (hList : ∀ m s, count (env.ListSharesSegment t.accountURL t.ctx m s).2 = count s)
    (hNested : ∀ tr p f s, count (env.traverse tr p f s).2 = count s + k tr)
    (fuel : Nat) (m : Marker) (s : σ) (out : Outcome σ ε (Call υ ρ χ κ τ π φ))
    (h : traverseFrom env t processor filters fuel m s = some out) :
    count out.state =
      count s + ((visitedNames out.log).map (fun n => k (shareTraverserFor env t n))).sum := by
  induction fuel generalizing m s out with
  | zero =>
    by_cases hm : m.NotDone = true
    · unfold traverseFrom at h
      simp [hm] at h
    · rw [traverseFrom_done env t processor filters 0 m s (by simpa using hm)] at h
      cases h
      simp [visitedNames]
  | succ fuel ih =>
    by_cases hm : m.NotDone = true
    · cases hf : (env.ListSharesSegment t.accountURL t.ctx m s).1 with
      | error e =>
        rw [traverseFrom_error env t processor filters fuel m s e hm hf] at h
        cases h
        simp [visitedNames, Call.shareName?, hList]
      | ok resp =>
        rw [traverseFrom_page env t processor filters fuel m s resp hm hf] at h
        have hi := rangeShareItems_count env t processor filters count k hNested
          resp.ShareItems (env.ListSharesSegment t.accountURL t.ctx m s).2
        rw [hList] at hi
        split at h
        · cases h
          rw [Outcome.after_state, Outcome.after_log, hi, visitedNames_append]
          simp [visitedNames, Call.shareName?]
        · rw [Option.map_eq_some'] at h
          obtain ⟨r, hr, rfl⟩ := h
          rw [Outcome.after_state, Outcome.after_log, ih _ _ _ hr, hi, visitedNames_append]
          simp [visitedNames, Call.shareName?, Nat.add_assoc]
    · rw [traverseFrom_done env t processor filters _ m s (by simpa using hm)] at h
      cases h
      simp [visitedNames]

/-- The deliveries of every run of the item loop: if the nested traversal by share
traverser `tr` with processor `p` and filters `f` adds the deliveries
`handsOver tr p f` to those received so far, a run of the item loop adds, for each
visited share in order, what its own share traverser hands over to the decorator
built for that share. -/
theorem rangeShareItems_received (env : Collaborators σ ε υ ρ χ κ τ π φ)
    (t : fileAccountTraverser υ ρ χ κ) (processor : π) (filters : φ)
    {δ : Type} (received : σ → List δ) (handsOver : τ → π → φ → List δ)
    (hNested : ∀ tr p f s,
      received (env.traverse tr p f s).2 = received s ++ handsOver tr p f)
    (items : List ShareItem) (s : σ) :
    received (rangeShareItems env t processor filters items s).state =
      received s ++
        (visitedNames (rangeShareItems env t processor filters items s).log).flatMap
          (fun c => handsOver (shareTraverserFor env t c)
            (env.initContainerDecorator c processor) filters) := by
  induction items generalizing s with
  | nil => simp [rangeShareItems, visitedNames]
  | cons v items ih =>
    rw [rangeShareItems_cons]
    have hv : received (visitShare env t processor filters v s).state =
        received s ++ handsOver (shareTraverserFor env t v.Name)
          (env.initContainerDecorator v.Name processor) filters := by
      rw [visitShare_state]; exact hNested _ _ _ _
    split
    · simp [visitedNames, Call.shareName?]
    · split
      · split
        · rw [Outcome.after_state, Outcome.after_log, visitShare_log, visitedNames_append,
            visitedNames_matchLog, visitedNames_visitLog, hv]
          simp
        · rw [Outcome.after_state, Outcome.after_log, ih, hv, visitedNames_append,
            visitedNames_append, visitedNames_matchLog, visitedNames_visitLog]
          simp [List.append_assoc]
      · rw [Outcome.after_state, Outcome.after_log, ih, visitedNames_append,
          visitedNames_matchLog]
        simp

theorem traverseFrom_received (env : Collaborators σ ε υ ρ χ κ τ π φ)
    (t : fileAccountTraverser υ ρ χ κ) (processor : π) (filters : φ)
    {δ : Type} (received : σ → List δ) (handsOver : τ → π → φ → List δ)
    (hList : ∀ m s, received (env.ListSharesSegment t.accountURL t.ctx m s).2 = received s)
    (hNested : ∀ tr p f s,
      received (env.traverse tr p f s).2 = received s ++ handsOver tr p f)
    (fuel : Nat) (m : Marker) (s : σ) (out : Outcome σ ε (Call υ ρ χ κ τ π φ))
    (h : traverseFrom env t processor filters fuel m s = some out) :
    received out.state =
      received s ++ (visitedNames out.log).flatMap
        (fun c => handsOver (shareTraverserFor env t c)
          (env.initContainerDecorator c processor) filters) := by
  induction fuel generalizing m s out with
  | zero =>
    by_cases hm : m.NotDone = true
    · unfold traverseFrom at h
      simp [hm] at h
    · rw [traverseFrom_done env t processor filters 0 m s (by simpa using hm)] at h
      cases h
      simp [visitedNames]
  | succ fuel ih =>
    by_cases hm : m.NotDone = true
    · cases hf : (env.ListSharesSegment t.accountURL t.ctx m s).1 with
      | error e =>
        rw [traverseFrom_error env t processor filters fuel m s e hm hf] at h
        cases h
        simp [visitedNames, Call.shareName?, hList]
      | ok resp =>
        rw [traverseFrom_page env t processor filters fuel m s resp hm hf] at h
        have hi := rangeShareItems_received env t processor filters received handsOver
          hNested resp.ShareItems (env.ListSharesSegment t.accountURL t.ctx m s).2
        rw [hList] at hi
        split at h
        · cases h
          rw [Outcome.after_state, Outcome.after_log, hi, visitedNames_append]
          simp [visitedNames, Call.shareName?]
        · rw [Option.map_eq_some'] at h
          obtain ⟨r, hr, rfl⟩ := h
          rw [Outcome.after_state, Outcome.after_log, ih _ _ _ hr, hi, visitedNames_append]
          simp [visitedNames, Call.shareName?, List.append_assoc]
    · rw [traverseFrom_done env t processor filters _ m s (by simpa using hm)] at h
      cases h
      simp [visitedNames]

/-! ### Whole runs -/

theorem passes_of_ne (env : Collaborators σ ε υ ρ χ κ τ π φ)
    (t : fileAccountTraverser υ ρ χ κ) (hp : t.sharePattern ≠ "") :
    passes env t = fun v => (env.Match t.sharePattern v.Name).1 := by
  funext v
  simp [passes, hp]

theorem passes_of_empty (env : Collaborators σ ε υ ρ χ κ τ π φ)
    (t : fileAccountTraverser υ ρ χ κ) (hp : t.sharePattern = "") :
    passes env t = fun _ => true := by
  funext v
  simp [passes, hp]

theorem Serves_append (env : Collaborators σ ε υ ρ χ κ τ π φ)
    (t : fileAccountTraverser υ ρ χ κ) (m : Marker) (a b : List ListSharesResponse) :
    Serves env t m (a ++ b) ↔ Serves env t m a ∧ Serves env t (lastMarker m a) b := by
  induction a generalizing m with
  | nil => simp [Serves, lastMarker]
  | cons page a ih => simp [Serves, lastMarker, ih, and_assoc]

theorem markers_dropLast_append (m : Marker) (pages : List ListSharesResponse) :
    (m :: pages.map ListSharesResponse.NextMarker).dropLast ++ [lastMarker m pages] =
      m :: pages.map ListSharesResponse.NextMarker := by
  induction pages generalizing m with
  | nil => rfl
  | cons page pages ih =>
    simp only [List.map_cons, List.dropLast_cons₂, List.cons_append, lastMarker]
    rw [ih]

/-- A complete, failure-free run: enough fuel gives `nil` and the failure-free log. -/
theorem traverseFrom_ok (env : Collaborators σ ε υ ρ χ κ τ π φ)
    (t : fileAccountTraverser υ ρ χ κ) (processor : π) (filters : φ)
    (pages : List ListSharesResponse) (m : Marker)
    (hS : Serves env t m pages) (hEnd : (lastMarker m pages).NotDone = false)
    (hM : ∀ v ∈ listed pages, MatchSucceeds env t v)
    (hN : ∀ v ∈ listed pages, passes env t v = true →
      NestedReturns env t processor filters v none)
    (fuel : Nat) (hfuel : pages.length ≤ fuel) (s : σ) :
    ∃ s1, traverseFrom env t processor filters fuel m s =
      some { err := none, log := pagesLog env t processor filters m pages, state := s1 } := by
  obtain ⟨s1, h⟩ := traverseFrom_pages_ok env t processor filters pages m hS hM hN
    (fuel - pages.length) s
  refine ⟨s1, ?_⟩
  have hlen : pages.length + (fuel - pages.length) = fuel := by omega
  rw [hlen] at h
  rw [h, traverseFrom_done env t processor filters _ _ s1 hEnd]
  simp [Outcome.after]

/-- A run whose listing call fails after the pages `pages`. -/
theorem traverseFrom_listing_error (env : Collaborators σ ε υ ρ χ κ τ π φ)
    (t : fileAccountTraverser υ ρ χ κ) (processor : π) (filters : φ)
    (pages : List ListSharesResponse) (m : Marker) (e : ε)
    (hS : Serves env t m pages) (hMore : (lastMarker m pages).NotDone = true)
    (hErr : ∀ s, (env.ListSharesSegment t.accountURL t.ctx (lastMarker m pages) s).1 =
      Except.error e)
    (hM : ∀ v ∈ listed pages, MatchSucceeds env t v)
    (hN : ∀ v ∈ listed pages, passes env t v = true →
      NestedReturns env t processor filters v none)
    (fuel : Nat) (hfuel : pages.length < fuel) (s : σ) :
    ∃ s1, traverseFrom env t processor filters fuel m s =
      some { err := some e,
             log := pagesLog env t processor filters m pages ++
               [Call.ListSharesSegment t.accountURL t.ctx (lastMarker m pages)],
             state := s1 } := by
  obtain ⟨s1, h⟩ := traverseFrom_pages_ok env t processor filters pages m hS hM hN
    (fuel - pages.length - 1 + 1) s
  have hlen : pages.length + (fuel - pages.length - 1 + 1) = fuel := by omega
  rw [hlen] at h
  rw [h, traverseFrom_error env t processor filters _ _ s1 e hMore (hErr s1)]
  exact ⟨(env.ListSharesSegment t.accountURL t.ctx (lastMarker m pages) s1).2,
    by simp [Outcome.after]⟩

/-- A run that is stopped inside the page `page`, fetched after the pages `pages`,
by an item loop that returns an error. -/
theorem traverseFrom_page_error (env : Collaborators σ ε υ ρ χ κ τ π φ)
    (t : fileAccountTraverser υ ρ χ κ) (processor : π) (filters : φ)
    (pages : List ListSharesResponse) (page : ListSharesResponse) (m : Marker)
    (hS : Serves env t m (pages ++ [page]))
    (hM : ∀ v ∈ listed pages, MatchSucceeds env t v)
    (hN : ∀ v ∈ listed pages, passes env t v = true →
      NestedReturns env t processor filters v none)
    (e : ε) (tail : List (Call υ ρ χ κ τ π φ))
    (hItems : ∀ s, ∃ s1, rangeShareItems env t processor filters page.ShareItems s =
      { err := some e, log := tail, state := s1 })
    (fuel : Nat) (hfuel : pages.length < fuel) (s : σ) :
    ∃ s1, traverseFrom env t processor filters fuel m s =
      some { err := some e,
             log := pagesLog env t processor filters m pages ++
               (Call.ListSharesSegment t.accountURL t.ctx (lastMarker m pages) :: tail),
             state := s1 } := by
  rw [Serves_append] at hS
  obtain ⟨hS1, hm, hf, _⟩ := hS
  obtain ⟨s1, h⟩ := traverseFrom_pages_ok env t processor filters pages m hS1 hM hN
    (fuel - pages.length - 1 + 1) s
  have hlen : pages.length + (fuel - pages.length - 1 + 1) = fuel := by omega
  rw [hlen] at h
  obtain ⟨s2, h2⟩ := hItems (env.ListSharesSegment t.accountURL t.ctx (lastMarker m pages) s1).2
  rw [h, traverseFrom_page env t processor filters _ _ s1 page hm (hf s1), h2]
  exact ⟨s2, by simp [Outcome.after]⟩

/-- The item loop stopped by the nested traversal of `c`, after a failure-free pass
over the items before it. -/
theorem rangeShareItems_nested_error (env : Collaborators σ ε υ ρ χ κ τ π φ)
    (t : fileAccountTraverser υ ρ χ κ) (processor : π) (filters : φ)
    (before after : List ShareItem) (c : ShareItem) (e : ε)
    (hM : ∀ v ∈ before, MatchSucceeds env t v)
    (hN : ∀ v ∈ before, passes env t v = true → NestedReturns env t processor filters v none)
    (hMc : MatchSucceeds env t c) (hc : passes env t c = true)
    (hFail : NestedReturns env t processor filters c (some e)) (s : σ) :
    ∃ s1, rangeShareItems env t processor filters (before ++ c :: after) s =
      { err := some e,
        log := itemsLog env t processor filters before ++
          (matchLog t c ++ visitLog env t processor filters c.Name),
        state := s1 } := by
  obtain ⟨s1, h⟩ := rangeShareItems_append_ok env t processor filters before (c :: after)
    hM hN s
  have hMv : ¬ (t.sharePattern ≠ "" ∧ (env.Match t.sharePattern c.Name).2.isSome = true) := by
    rintro ⟨hp, he⟩
    simp [hMc hp] at he
  have he : (visitShare env t processor filters c s1).err = some e := by
    rw [visitShare_err]; exact hFail s1
  rw [h, rangeShareItems_cons, if_neg hMv, if_pos hc]
  simp only [he, Option.isSome_some, if_true]
  refine ⟨(visitShare env t processor filters c s1).state, ?_⟩
  cases hv : visitShare env t processor filters c s1 with
  | mk err log state =>
    have hl : log = visitLog env t processor filters c.Name := by
      have := visitShare_log env t processor filters c s1
      rw [hv] at this; exact this
    have he2 : err = some e := by rw [hv] at he; exact he
    simp [Outcome.after, hl, he2]

theorem pagesLog_of_empty (env : Collaborators σ ε υ ρ χ κ τ π φ)
    (t : fileAccountTraverser υ ρ χ κ) (processor : π) (filters : φ)
    (pages : List ListSharesResponse) (m : Marker)
    (hEmpty : ∀ page ∈ pages, page.ShareItems = []) :
    pagesLog env t processor filters m pages =
      ((m :: pages.map ListSharesResponse.NextMarker).dropLast).map
        (Call.ListSharesSegment t.accountURL t.ctx) := by
  induction pages generalizing m with
  | nil => rfl
  | cons page pages ih =>
    have h1 : page.ShareItems = [] := hEmpty page (List.mem_cons_self _ _)
    have h2 := ih page.NextMarker (fun q hq => hEmpty q (List.mem_cons_of_mem _ hq))
    simp only [pagesLog, h1, itemsLog, List.flatMap_nil, List.nil_append, h2, List.map_cons,
      List.dropLast_cons₂]

theorem listed_of_empty (pages : List ListSharesResponse)
    (hEmpty : ∀ page ∈ pages, page.ShareItems = []) : listed pages = [] := by
  induction pages with
  | nil => rfl
  | cons page pages ih =>
    simp only [listed, List.flatMap_cons, hEmpty page (List.mem_cons_self _ _), List.nil_append]
    exact ih (fun q hq => hEmpty q (List.mem_cons_of_mem _ hq))

theorem pages_ne_nil_of_done (pages : List ListSharesResponse)
    (hEnd : (lastMarker { Val := none } pages).NotDone = false) : 1 ≤ pages.length := by
  cases pages with
  | nil => simp [lastMarker, Marker.NotDone] at hEnd
  | cons page pages => simp

theorem traverseFrom_head (env : Collaborators σ ε υ ρ χ κ τ π φ)
    (t : fileAccountTraverser υ ρ χ κ) (processor : π) (filters : φ)
    (fuel : Nat) (m : Marker) (s : σ) (out : Outcome σ ε (Call υ ρ χ κ τ π φ))
    (hm : m.NotDone = true)
    (h : traverseFrom env t processor filters fuel m s = some out) :
    out.log.head? = some (Call.ListSharesSegment t.accountURL t.ctx m) := by
  cases fuel with
  | zero =>
    unfold traverseFrom at h
    simp [hm] at h
  | succ fuel =>
    cases hf : (env.ListSharesSegment t.accountURL t.ctx m s).1 with
    | error e =>
      rw [traverseFrom_error env t processor filters fuel m s e hm hf] at h
      cases h
      rfl
    | ok resp =>
      rw [traverseFrom_page env t processor filters fuel m s resp hm hf] at h
      split at h
      · cases h
        rfl
      · rw [Option.map_eq_some'] at h
        obtain ⟨r, _, rfl⟩ := h
        rfl

theorem fetch_log_observables (accountURL : ServiceURL υ ρ) (ctx : χ) (markers : List Marker) :
    matchCalls (markers.map (Call.ListSharesSegment accountURL ctx) :
      List (Call υ ρ χ κ τ π φ)) = [] ∧
    visits (markers.map (Call.ListSharesSegment accountURL ctx) :
      List (Call υ ρ χ κ τ π φ)) = [] ∧
    visitedNames (markers.map (Call.ListSharesSegment accountURL ctx) :
      List (Call υ ρ χ κ τ π φ)) = [] ∧
    handedProcessors (markers.map (Call.ListSharesSegment accountURL ctx) :
      List (Call υ ρ χ κ τ π φ)) = [] := by
  induction markers with
  | nil => exact ⟨rfl, rfl, rfl, rfl⟩
  | cons m markers ih =>
    obtain ⟨h1, h2, h3, h4⟩ := ih
    exact ⟨h1, h2, h3, h4⟩

theorem fetches_head (log : List (Call υ ρ χ κ τ π φ)) (accountURL : ServiceURL υ ρ)
    (ctx : χ) (m : Marker) (h : log.head? = some (Call.ListSharesSegment accountURL ctx m)) :
    (fetches log).head? = some m := by
  cases log with
  | nil => simp at h
  | cons c log =>
    simp only [List.head?_cons, Option.some.injEq] at h
    subst h
    rfl

/-! ### The model of the glob matcher on known inputs -/

/-- The model agrees with entries of the table of Go's own `TestMatch`, and it
reports a syntax error only in a chunk it reaches: on a name that fails an earlier
chunk, the malformed rest of `log*[` and of `a*[` goes unnoticed. -/
theorem filepath.Match_examples {ε : Type} (E : ε) :
    filepath.Match E "abc" "abc" = (true, none) ∧
    filepath.Match E "a*" "ab/c" = (false, none) ∧
    filepath.Match E "a*b?c*x" "abxbbxdbxebxczzx" = (true, none) ∧
    filepath.Match E "a*b?c*x" "abxbbxdbxebxczzy" = (false, none) ∧
    filepath.Match E "ab[^b-d]" "abc" = (false, none) ∧
    filepath.Match E "ab[^e-g]" "abc" = (true, none) ∧
    filepath.Match E "[\\-x]" "-" = (true, none) ∧
    filepath.Match E "[a-b-c]" "a" = (false, some E) ∧
    filepath.Match E "a[" "x" = (false, some E) ∧
    filepath.Match E "*x" "xxx" = (true, none) ∧
    filepath.Match E "a?b" "a☺b" = (true, none) ∧
    filepath.Match E "a???b" "a☺b" = (false, none) ∧
    filepath.Match E "[a-ζ]*" "α" = (true, none) ∧
    filepath.Match E "*??" "€" = (true, none) ∧
    filepath.Match E "a*[" "x" = (false, none) ∧
    filepath.Match E "log*[" "images" = (false, none) ∧
    filepath.Match E "log*[" "logs" = (false, some E) :=
  ⟨rfl, rfl, rfl, rfl, rfl, rfl, rfl, rfl, rfl, rfl, rfl, rfl, rfl, rfl, rfl, rfl, rfl⟩

theorem filepath.matchChunk_invalid {ε : Type} (E : ε) (s : List Nat) :
    filepath.matchChunk E (utf8.bytes "[invalid") s = ([], false, some E) := by
  cases s <;> rfl

/-- The pattern `[invalid` is malformed in its first chunk: the matcher reports
`ErrBadPattern` for it on every name. -/
theorem filepath.Match_invalid {ε : Type} (E : ε) (name : String) :
    filepath.Match E "[invalid" name = (false, some E) := by
  have hs : filepath.scanChunk (utf8.bytes "[invalid") =
      (false, utf8.bytes "[invalid", []) := by
    decide
  unfold filepath.Match
  have hl : (utf8.bytes "[invalid").length + 1 = 8 + 1 := by decide
  rw [hl, filepath.MatchLoop]
  have hne : (utf8.bytes "[invalid").isEmpty = false := by decide
  simp only [hne, hs, filepath.matchChunk_invalid]
  simp

end Lemmas

/-! ## The claims -/

section Claims

variable {σ ε υ ρ χ κ τ π φ : Type}

/-- C1: for a non-empty pattern on which the matcher reports no error for any
listed share, a finite paged listing (`pages`, served from the initial marker, the
last page with a done marker) and nested traversals that do not fail, `traverse`
returns `nil` with enough fuel, and the shares for which a share traverser is
created and traversed are exactly the listed shares on which the matcher says
yes, in listing order. -/
theorem traverse_visits_exactly_matching_shares (env : Collaborators σ ε υ ρ χ κ τ π φ)
    (t : fileAccountTraverser υ ρ χ κ) (processor : π) (filters : φ)
    (pages : List ListSharesResponse)
    (hP : t.sharePattern ≠ "")
    (hS : Serves env t { Val := none } pages)
    (hEnd : (lastMarker { Val := none } pages).NotDone = false)
    (hValid : ∀ v ∈ listed pages, (env.Match t.sharePattern v.Name).2 = none)
    (hNested : ∀ v ∈ listed pages, (env.Match t.sharePattern v.Name).1 = true →
      NestedReturns env t processor filters v none)
    (fuel : Nat) (hfuel : pages.length ≤ fuel) (s : σ) :
    ∃ out, t.traverse env processor filters fuel s = some out ∧ out.err = none ∧
      visitedNames out.log =
        ((listed pages).filter (fun v => (env.Match t.sharePattern v.Name).1)).map
          ShareItem.Name ∧
      visits out.log =
        ((listed pages).filter (fun v => (env.Match t.sharePattern v.Name).1)).flatMap
          (fun v => visitLog env t processor filters v.Name) := by
  have hpass := passes_of_ne env t hP
  obtain ⟨s1, h⟩ := traverseFrom_ok env t processor filters pages { Val := none } hS hEnd
    (fun v hv _ => hValid v hv)
    (fun v hv hp => hNested v hv (by rw [hpass] at hp; exact hp)) fuel hfuel s
  refine ⟨_, h, rfl, ?_, ?_⟩
  · rw [visitedNames_pagesLog, hpass]
  · rw [visits_pagesLog, hpass]

/-- C1, scenario: shares logs, images, log-archive with pattern `log*`: logs and
log-archive are visited, in that order, and images is not. -/
theorem traverse_visits_exactly_matching_shares_witness :
    ∃ out, Scenario.run Scenario.logsTable [] "log*" 2 = some out ∧ out.err = none ∧
      visitedNames out.log = ["logs", "log-archive"] ∧
      handedProcessors out.log = [["logs"], ["log-archive"]] ∧
      "images" ∉ visitedNames out.log := by
  obtain ⟨out, h1, h2, h3, h4⟩ := traverse_visits_exactly_matching_shares
    (Scenario.env Scenario.logsTable []) (Scenario.account "log*") [] ()
    [Scenario.logsPage1, Scenario.logsPage2] (by decide)
    ⟨rfl, fun _ => rfl, rfl, fun _ => rfl, trivial⟩ rfl (by decide)
    (fun _ _ _ _ => rfl) 2 (by decide) 0
  have h5 : visitedNames out.log = ["logs", "log-archive"] := by rw [h3]; rfl
  refine ⟨out, h1, h2, h5, ?_, ?_⟩
  · have h6 : handedProcessors (visits out.log) = [["logs"], ["log-archive"]] := by
      rw [h4]; rfl
    rw [← h6]
    simp only [handedProcessors, visits, List.filterMap_filter]
    congr 1
    funext c
    cases c <;> rfl
  · rw [h5]; decide

/-- C2: if the pages before `page` and the items of `page` before `c` are handled
without failure, `c` passes the pattern test and its nested traversal returns the
error `e`, then `traverse` returns exactly `e`; the shares visited are the passing
shares before `c`, each with a complete visit, followed by `c`; nothing is created
or traversed for the items after `c`, and the fetch of `page` is the last fetch. -/
theorem traverse_nested_error_aborts (env : Collaborators σ ε υ ρ χ κ τ π φ)
    (t : fileAccountTraverser υ ρ χ κ) (processor : π) (filters : φ)
    (pages : List ListSharesResponse) (page : ListSharesResponse)
    (before after : List ShareItem) (c : ShareItem) (e : ε)
    (hS : Serves env t { Val := none } (pages ++ [page]))
    (hItems : page.ShareItems = before ++ c :: after)
    (hMatch : ∀ v ∈ listed pages ++ before ++ [c], MatchSucceeds env t v)
    (hNested : ∀ v ∈ listed pages ++ before, passes env t v = true →
      NestedReturns env t processor filters v none)
    (hc : passes env t c = true)
    (hFail : NestedReturns env t processor filters c (some e))
    (fuel : Nat) (hfuel : pages.length < fuel) (s : σ) :
    ∃ out, t.traverse env processor filters fuel s = some out ∧ out.err = some e ∧
      visitedNames out.log =
        (((listed pages ++ before).filter (passes env t)) ++ [c]).map ShareItem.Name ∧
      visits out.log =
        (((listed pages ++ before).filter (passes env t)) ++ [c]).flatMap
          (fun v => visitLog env t processor filters v.Name) ∧
      fetches out.log = { Val := none } :: pages.map ListSharesResponse.NextMarker := by
  have hM1 : ∀ v ∈ listed pages, MatchSucceeds env t v :=
    fun v hv => hMatch v (by simp [hv])
  have hN1 : ∀ v ∈ listed pages, passes env t v = true →
      NestedReturns env t processor filters v none :=
    fun v hv => hNested v (by simp [hv])
  have hM2 : ∀ v ∈ before, MatchSucceeds env t v := fun v hv => hMatch v (by simp [hv])
  have hN2 : ∀ v ∈ before, passes env t v = true →
      NestedReturns env t processor filters v none :=
    fun v hv => hNested v (by simp [hv])
  have hMc : MatchSucceeds env t c := hMatch c (by simp)
  obtain ⟨s1, h⟩ := traverseFrom_page_error env t processor filters pages page
    { Val := none } hS hM1 hN1 e
    (itemsLog env t processor filters before ++
      (matchLog t c ++ visitLog env t processor filters c.Name))
    (fun s0 => by
      rw [hItems]
      exact rangeShareItems_nested_error env t processor filters before after c e hM2 hN2
        hMc hc hFail s0)
    fuel hfuel s
  refine ⟨_, h, rfl, ?_, ?_, ?_⟩
  · simp only [visitedNames_append, visitedNames_pagesLog, List.filter_append, List.map_append]
    have hcons : ∀ (x : Call υ ρ χ κ τ π φ) l, visitedNames (x :: l) =
        visitedNames [x] ++ visitedNames l := fun x l => visitedNames_append [x] l
    rw [hcons, visitedNames_append, visitedNames_append, visitedNames_itemsLog,
      visitedNames_matchLog, visitedNames_visitLog]
    simp [visitedNames, Call.shareName?]
  · simp only [visits_append, visits_pagesLog, List.filter_append, List.flatMap_append]
    have hcons : ∀ (x : Call υ ρ χ κ τ π φ) l, visits (x :: l) =
        visits [x] ++ visits l := fun x l => visits_append [x] l
    rw [hcons, visits_append, visits_append, visits_itemsLog, visits_matchLog,
      visits_visitLog]
    simp [visits, Call.isVisit]
  · simp only [fetches_append, fetches_pagesLog]
    have hcons : ∀ (x : Call υ ρ χ κ τ π φ) l, fetches (x :: l) =
        fetches [x] ++ fetches l := fun x l => fetches_append [x] l
    rw [hcons, fetches_append, fetches_append, fetches_itemsLog, fetches_matchLog,
      fetches_visitLog]
    have h1 : fetches ([Call.ListSharesSegment t.accountURL t.ctx
        (lastMarker { Val := none } pages)] : List (Call υ ρ χ κ τ π φ)) =
        [lastMarker { Val := none } pages] := rfl
    rw [h1]
    simp only [List.append_nil]
    exact markers_dropLast_append _ _

/-- C2, scenario: shares logs, images (first page) and log-archive (second page),
empty pattern, the traversal of images fails: logs and images are visited, the
error is returned, log-archive is not visited and the second page is not fetched. -/
theorem traverse_nested_error_aborts_witness :
    ∃ out, Scenario.run Scenario.logsTable ["https://acct.file.core.windows.net/images"] "" 2
        = some out ∧
      out.err = some "share traversal failed" ∧
      visitedNames out.log = ["logs", "images"] ∧
      fetches out.log = [{ Val := none }] := by
  obtain ⟨out, h1, h2, h3, _, h5⟩ := traverse_nested_error_aborts
    (Scenario.env Scenario.logsTable ["https://acct.file.core.windows.net/images"])
    (Scenario.account "") [] () [] Scenario.logsPage1 [⟨"logs"⟩] [] ⟨"images"⟩
    "share traversal failed"
    ⟨rfl, fun _ => rfl, trivial⟩ rfl (fun _ _ hp => absurd rfl hp)
    (fun v hv _ s => by
      have hv1 : v = ⟨"logs"⟩ := by simpa [listed] using hv
      subst hv1
      rfl)
    rfl (fun _ => rfl) 2 (by decide) 0
  exact ⟨out, h1, h2, by rw [h3]; rfl, by rw [h5]; rfl⟩

/-- C3: if the pages `pages` (pages 1..k-1) are fetched and handled without
failure and the next listing call (page k) fails with the error `e`, then
`traverse` returns exactly `e`; the shares visited are exactly the passing shares
of the pages before, in listing order, each with a complete visit; the failing
fetch is the k-th and last fetch. -/
theorem traverse_listing_error_aborts (env : Collaborators σ ε υ ρ χ κ τ π φ)
    (t : fileAccountTraverser υ ρ χ κ) (processor : π) (filters : φ)
    (pages : List ListSharesResponse) (e : ε)
    (hS : Serves env t { Val := none } pages)
    (hMore : (lastMarker { Val := none } pages).NotDone = true)
    (hErr : ∀ s, (env.ListSharesSegment t.accountURL t.ctx
      (lastMarker { Val := none } pages) s).1 = Except.error e)
    (hMatch : ∀ v ∈ listed pages, MatchSucceeds env t v)
    (hNested : ∀ v ∈ listed pages, passes env t v = true →
      NestedReturns env t processor filters v none)
    (fuel : Nat) (hfuel : pages.length < fuel) (s : σ) :
    ∃ out, t.traverse env processor filters fuel s = some out ∧ out.err = some e ∧
      visitedNames out.log = ((listed pages).filter (passes env t)).map ShareItem.Name ∧
      visits out.log = ((listed pages).filter (passes env t)).flatMap
        (fun v => visitLog env t processor filters v.Name) ∧
      fetches out.log = { Val := none } :: pages.map ListSharesResponse.NextMarker ∧
      (fetches out.log).length = pages.length + 1 := by
  obtain ⟨s1, h⟩ := traverseFrom_listing_error env t processor filters pages
    { Val := none } e hS hMore hErr hMatch hNested fuel hfuel s
  have hf : fetches (pagesLog env t processor filters { Val := none } pages ++
      [Call.ListSharesSegment t.accountURL t.ctx (lastMarker { Val := none } pages)]) =
      { Val := none } :: pages.map ListSharesResponse.NextMarker := by
    rw [fetches_append, fetches_pagesLog]
    exact markers_dropLast_append _ _
  refine ⟨_, h, rfl, ?_, ?_, hf, ?_⟩
  · simp only [visitedNames_append, visitedNames_pagesLog]
    simp [visitedNames, Call.shareName?]
  · simp only [visits_append, visits_pagesLog]
    simp [visits, Call.isVisit]
  · simp only [hf, List.length_cons, List.length_map]

/-- C3, scenario: pattern `log*`, first page with shares logs and images, the fetch
of the second page fails: the listing error is returned after two fetches and only
logs has been visited. -/
theorem traverse_listing_error_aborts_witness :
    ∃ out, Scenario.run Scenario.brokenTable [] "log*" 2 = some out ∧
      out.err = some "listing failed" ∧
      visitedNames out.log = ["logs"] ∧
      fetches out.log = [{ Val := none }, { Val := some "page2" }] := by
  obtain ⟨out, h1, h2, h3, _, h5, _⟩ := traverse_listing_error_aborts
    (Scenario.env Scenario.brokenTable []) (Scenario.account "log*") [] ()
    [Scenario.logsPage1] "listing failed"
    ⟨rfl, fun _ => rfl, trivial⟩ rfl (fun _ => rfl)
    (by decide) (fun _ _ _ _ => rfl) 2 (by decide) 0
  exact ⟨out, h1, h2, by rw [h3]; rfl, by rw [h5]; rfl⟩

/-- When the matcher reports an error: with a non-empty pattern, if the first fetch
succeeds, its page has a first item `v`, and the matcher reports the error `e` for
the pattern on `v`, then `traverse` returns exactly `e` and the calls made are the
first fetch and that one matcher call: no share URL, share traverser or decorator
is built and no nested traversal is run. -/
theorem traverse_match_error_aborts (env : Collaborators σ ε υ ρ χ κ τ π φ)
    (t : fileAccountTraverser υ ρ χ κ) (processor : π) (filters : φ)
    (resp : ListSharesResponse) (v : ShareItem) (items : List ShareItem) (e : ε) (s : σ)
    (hP : t.sharePattern ≠ "")
    (hFetch : (env.ListSharesSegment t.accountURL t.ctx { Val := none } s).1 = Except.ok resp)
    (hItems : resp.ShareItems = v :: items)
    (hBad : (env.Match t.sharePattern v.Name).2 = some e)
    (fuel : Nat) (hfuel : 0 < fuel) :
    ∃ out, t.traverse env processor filters fuel s = some out ∧ out.err = some e ∧
      out.log = [Call.ListSharesSegment t.accountURL t.ctx { Val := none },
                 Call.Match t.sharePattern v.Name] ∧
      visits out.log = [] ∧ visitedNames out.log = [] ∧ handedProcessors out.log = [] := by
  obtain ⟨n, rfl⟩ : ∃ n, fuel = n + 1 := ⟨fuel - 1, by omega⟩
  have h := traverseFrom_page env t processor filters n { Val := none } s resp rfl hFetch
  have hr : rangeShareItems env t processor filters resp.ShareItems
      (env.ListSharesSegment t.accountURL t.ctx { Val := none } s).2 =
      { err := some e, log := [Call.Match t.sharePattern v.Name],
        state := (env.ListSharesSegment t.accountURL t.ctx { Val := none } s).2 } := by
    rw [hItems, rangeShareItems_cons, if_pos ⟨hP, by simp [hBad]⟩, hBad]
  rw [hr] at h
  simp only [Option.isSome_some, if_true] at h
  exact ⟨_, h, rfl, rfl, rfl, rfl, rfl⟩

/-- The pattern `[invalid`, malformed in its first chunk, on the account with
shares logs, images, log-archive: the pattern error is returned on the first item
and nothing is visited. -/
theorem traverse_match_error_aborts_invalid :
    ∃ out, Scenario.run Scenario.logsTable [] "[invalid" 1 = some out ∧
      out.err = some Scenario.ErrBadPattern ∧
      out.log = [Call.ListSharesSegment (Scenario.account "[invalid").accountURL ()
                   { Val := none },
                 Call.Match "[invalid" "logs"] ∧
      visits out.log = [] := by
  obtain ⟨out, h1, h2, h3, h4, _⟩ := traverse_match_error_aborts
    (Scenario.env Scenario.logsTable []) (Scenario.account "[invalid") [] ()
    Scenario.logsPage1 ⟨"logs"⟩ [⟨"images"⟩] Scenario.ErrBadPattern 0
    (by decide) rfl rfl rfl 1 (by decide)
  exact ⟨out, h1, h2, h3, h4⟩

/-- C4, at the failing input: the pattern `log*[` is malformed (the matcher reports
`ErrBadPattern` for it on the name logs), yet on the account whose only share is
images the matcher reports no error on that first item, the share is skipped and
`traverse` returns `nil` after one fetch and one matcher call; the malformed
pattern is never reported. -/
theorem traverse_malformed_pattern_unreported :
    filepath.Match Scenario.ErrBadPattern "log*[" "logs" =
      (false, some Scenario.ErrBadPattern) ∧
    filepath.Match Scenario.ErrBadPattern "log*[" "images" = (false, none) ∧
    Scenario.run Scenario.imagesTable [] "log*[" 1 =
      some { err := none,
             log := [Call.ListSharesSegment (Scenario.account "log*[").accountURL ()
                       { Val := none },
                     Call.Match "log*[" "images"],
             state := 0 } :=
  ⟨rfl, rfl, rfl⟩

/-- C5: in every run of `traverse`, whatever the nested traversals hand over to the
processors they are given (`handsOver tr p f` for share traverser `tr` run with
processor `p` and filters `f`), the deliveries of the run are, for each visited
share `c` in order, exactly what the share traverser built for `c` hands over to
`initContainerDecorator(c, processor)`: the nested traversal of `c` is run with the
decorator built from the name of that same share and the caller's processor.  So
if what goes through the decorator for `c` reaches the caller's processor carrying
the container name `c`, every object delivered in the run was discovered by the
share traverser of a visited share `c` and carries the name of that same share.
The call log agrees: every visit is the share URL of `c`, the share traverser for
it, the decorator for `c`, and the nested traversal with that decorator. -/
theorem traverse_hands_own_decorator (env : Collaborators σ ε υ ρ χ κ τ π φ)
    (t : fileAccountTraverser υ ρ χ κ) (processor : π) (filters : φ)
    {δ : Type} (received : σ → List δ) (handsOver : τ → π → φ → List δ)
    (container : δ → String)
    (hList : ∀ m s, received (env.ListSharesSegment t.accountURL t.ctx m s).2 = received s)
    (hNested : ∀ tr p f s,
      received (env.traverse tr p f s).2 = received s ++ handsOver tr p f)
    (hDecorator : ∀ tr c f, ∀ d ∈ handsOver tr (env.initContainerDecorator c processor) f,
      container d = c)
    (fuel : Nat) (s : σ) (out : Outcome σ ε (Call υ ρ χ κ τ π φ))
    (h : t.traverse env processor filters fuel s = some out) :
    ∃ delivered, received out.state = received s ++ delivered ∧
      delivered = (visitedNames out.log).flatMap
        (fun c => handsOver (shareTraverserFor env t c)
          (env.initContainerDecorator c processor) filters) ∧
      (∀ d ∈ delivered, ∃ c ∈ visitedNames out.log,
        d ∈ handsOver (shareTraverserFor env t c)
          (env.initContainerDecorator c processor) filters ∧ container d = c) ∧
      visits out.log = (visitedNames out.log).flatMap (visitLog env t processor filters) ∧
      handedProcessors out.log =
        (visitedNames out.log).map (fun c => env.initContainerDecorator c processor) := by
  have hinv := traverseFrom_LogInv env t processor filters fuel { Val := none } s out h
  refine ⟨_, traverseFrom_received env t processor filters received handsOver hList hNested
    fuel { Val := none } s out h, rfl, ?_, hinv.1, hinv.2.1⟩
  intro d hd
  rw [List.mem_flatMap] at hd
  obtain ⟨c, hc, hdc⟩ := hd
  exact ⟨c, hc, hdc, hDecorator _ c filters d hdc⟩

/-- C5, scenario: shares logs, images, log-archive with pattern `log*` and caller's
processor `[]`, each nested traversal invoking the processor it is handed on the
one object it discovers: the object of logs is delivered through the decorator for
logs and the object of log-archive through the decorator for log-archive. -/
theorem traverse_hands_own_decorator_witness :
    (Scenario.account "log*").traverse (Scenario.deliveryEnv Scenario.logsTable) [] () 2 [] =
      some (Scenario.deliveryOutcome Scenario.logsTable "log*" 2) ∧
    (Scenario.deliveryOutcome Scenario.logsTable "log*" 2).state =
      [(["logs"], "https://acct.file.core.windows.net/logs/file"),
       (["log-archive"], "https://acct.file.core.windows.net/log-archive/file")] ∧
    visitedNames (Scenario.deliveryOutcome Scenario.logsTable "log*" 2).log =
      ["logs", "log-archive"] ∧
    ∃ delivered, (Scenario.deliveryOutcome Scenario.logsTable "log*" 2).state =
        [] ++ delivered ∧
      ∀ d ∈ delivered,
        ∃ c ∈ visitedNames (Scenario.deliveryOutcome Scenario.logsTable "log*" 2).log,
          d ∈ [((Scenario.deliveryEnv Scenario.logsTable).initContainerDecorator c [],
            shareTraverserFor (Scenario.deliveryEnv Scenario.logsTable)
              (Scenario.account "log*") c ++ "/file")] ∧ d.1.headD "" = c := by
  obtain ⟨delivered, h1, _, h3, _⟩ :=
    traverse_hands_own_decorator (Scenario.deliveryEnv Scenario.logsTable)
      (Scenario.account "log*") [] () (fun s => s)
      (fun tr p _ => [(p, tr ++ "/file")]) (fun d => d.1.headD "")
      (fun _ _ => rfl) (fun _ _ _ _ => rfl)
      (fun _ _ _ d hd => by
        rw [List.mem_singleton] at hd
        rw [hd]
        rfl)
      2 [] (Scenario.deliveryOutcome Scenario.logsTable "log*" 2) rfl
  exact ⟨rfl, rfl, rfl, delivered, h1, h3⟩

/-- C6: `newFileAccountTraverser` returns a traverser whose `sharePattern` is the
share-name component of the parsed root URL (empty when the URL has none) and whose
`accountURL` is the service URL of the root URL's parts with the share name set to
the empty string and all other components unchanged; pipeline, context and counter
are stored as given. -/
theorem newFileAccountTraverser_splits_url {α : Type} (NewFileURLParts : υ → FileURLParts α)
    (URL : FileURLParts α → υ) (rawURL : υ) (p : ρ) (ctx : χ) (counter : κ) :
    (newFileAccountTraverser NewFileURLParts URL rawURL p ctx counter).sharePattern =
      (NewFileURLParts rawURL).ShareName ∧
    (newFileAccountTraverser NewFileURLParts URL rawURL p ctx counter).accountURL =
      NewServiceURL
        (URL { ShareName := "", others := (NewFileURLParts rawURL).others }) p ∧
    (newFileAccountTraverser NewFileURLParts URL rawURL p ctx counter).p = p ∧
    (newFileAccountTraverser NewFileURLParts URL rawURL p ctx counter).ctx = ctx ∧
    (newFileAccountTraverser NewFileURLParts URL rawURL p ctx counter).incrementEnumerationCounter
      = counter := by
  refine ⟨rfl, ?_, rfl, rfl, rfl⟩
  by_cases h : (NewFileURLParts rawURL).ShareName = ""
  · simp only [newFileAccountTraverser, h, ne_eq, not_true_eq_false, if_false]
    congr 2
    cases hp : NewFileURLParts rawURL with
    | mk name others =>
      rw [hp] at h
      simp only at h
      simp [h]
  · simp only [newFileAccountTraverser, h, ne_eq, not_false_eq_true, if_true]

/-- C7: with the empty pattern the glob matcher is never consulted, in any run;
and for a finite paged listing whose nested traversals do not fail, `traverse`
returns `nil` with enough fuel and visits every listed share, whatever its name,
in listing order. -/
theorem traverse_empty_pattern_visits_all (env : Collaborators σ ε υ ρ χ κ τ π φ)
    (t : fileAccountTraverser υ ρ χ κ) (processor : π) (filters : φ)
    (pages : List ListSharesResponse)
    (hP : t.sharePattern = "")
    (hS : Serves env t { Val := none } pages)
    (hEnd : (lastMarker { Val := none } pages).NotDone = false)
    (hNested : ∀ v ∈ listed pages, NestedReturns env t processor filters v none) :
    (∀ fuel s out, t.traverse env processor filters fuel s = some out →
      matchCalls out.log = []) ∧
    (∀ fuel, pages.length ≤ fuel → ∀ s,
      ∃ out, t.traverse env processor filters fuel s = some out ∧ out.err = none ∧
        visitedNames out.log = (listed pages).map ShareItem.Name ∧
        visits out.log =
          (listed pages).flatMap (fun v => visitLog env t processor filters v.Name)) := by
  refine ⟨fun fuel s out h =>
    (traverseFrom_LogInv env t processor filters fuel { Val := none } s out h).2.2.2 hP, ?_⟩
  intro fuel hfuel s
  have hpass := passes_of_empty env t hP
  obtain ⟨s1, h⟩ := traverseFrom_ok env t processor filters pages { Val := none } hS hEnd
    (fun v _ hne => absurd hP hne) (fun v hv _ => hNested v hv) fuel hfuel s
  refine ⟨_, h, rfl, ?_, ?_⟩
  · rw [visitedNames_pagesLog, hpass]; simp
  · rw [visits_pagesLog, hpass]; simp

/-- C7, scenario: shares a, b with the empty pattern: a then b are visited and the
matcher is not consulted. -/
theorem traverse_empty_pattern_visits_all_witness :
    matchCalls (Scenario.outcome Scenario.abTable [] "" 1).log = [] ∧
    ∃ out, Scenario.run Scenario.abTable [] "" 1 = some out ∧ out.err = none ∧
      visitedNames out.log = ["a", "b"] := by
  have h := traverse_empty_pattern_visits_all (Scenario.env Scenario.abTable [])
    (Scenario.account "") [] () [Scenario.abPage] rfl
    ⟨rfl, fun _ => rfl, trivial⟩ rfl (fun _ _ _ => rfl)
  refine ⟨h.1 1 0 (Scenario.outcome Scenario.abTable [] "" 1) rfl, ?_⟩
  obtain ⟨out, h1, h2, h3, _⟩ := h.2 1 (by decide) 0
  exact ⟨out, h1, h2, by rw [h3]; rfl⟩

/-- C8: for a finite paged listing whose pages hold no share item, and for every
share pattern, `traverse` returns `nil` with enough fuel and its only calls are the
page fetches: the matcher is not consulted (so a malformed pattern is not
reported), no share traverser or decorator is built and no nested traversal, hence
no processor, is run. -/
theorem traverse_no_shares_returns_nil (env : Collaborators σ ε υ ρ χ κ τ π φ)
    (t : fileAccountTraverser υ ρ χ κ) (processor : π) (filters : φ)
    (pages : List ListSharesResponse)
    (hS : Serves env t { Val := none } pages)
    (hEnd : (lastMarker { Val := none } pages).NotDone = false)
    (hEmpty : ∀ page ∈ pages, page.ShareItems = [])
    (fuel : Nat) (hfuel : pages.length ≤ fuel) (s : σ) :
    ∃ out, t.traverse env processor filters fuel s = some out ∧ out.err = none ∧
      out.log = (({ Val := none } :: pages.map ListSharesResponse.NextMarker).dropLast).map
        (Call.ListSharesSegment t.accountURL t.ctx) ∧
      matchCalls out.log = [] ∧ visits out.log = [] ∧ visitedNames out.log = [] ∧
      handedProcessors out.log = [] := by
  have hl := listed_of_empty pages hEmpty
  obtain ⟨s1, h⟩ := traverseFrom_ok env t processor filters pages { Val := none } hS hEnd
    (fun v hv => by rw [hl] at hv; simp at hv)
    (fun v hv => by rw [hl] at hv; simp at hv) fuel hfuel s
  rw [pagesLog_of_empty env t processor filters pages _ hEmpty] at h
  obtain ⟨o1, o2, o3, o4⟩ := fetch_log_observables (κ := κ) (τ := τ) (π := π) (φ := φ)
    t.accountURL t.ctx ({ Val := none } :: pages.map ListSharesResponse.NextMarker).dropLast
  exact ⟨_, h, rfl, rfl, o1, o2, o3, o4⟩

/-- C8, scenario: an account without shares, listed in two empty pages, with the
malformed pattern `[invalid`: `nil` is returned and only the two fetches are made. -/
theorem traverse_no_shares_returns_nil_witness :
    ∃ out, Scenario.run Scenario.emptyTable [] "[invalid" 2 = some out ∧ out.err = none ∧
      fetches out.log = [{ Val := none }, { Val := some "more" }] ∧
      matchCalls out.log = [] ∧ visits out.log = [] := by
  obtain ⟨out, h1, h2, h3, h4, h5, _⟩ := traverse_no_shares_returns_nil
    (Scenario.env Scenario.emptyTable []) (Scenario.account "[invalid") [] ()
    Scenario.emptyPages ⟨rfl, fun _ => rfl, rfl, fun _ => rfl, trivial⟩ rfl (by decide)
    2 (by decide) 0
  exact ⟨out, h1, h2, by rw [h3]; rfl, h4, h5⟩

/-- C9: in every run of `traverse`, if listing calls leave the enumeration count
alone and the nested traversal by share traverser `tr` raises it by `k tr`, then
the count after the run is the count before plus the sum of `k` over the share
traversers of the visited shares, and every visited share was admitted by the
pattern test (empty pattern, or the matcher said yes without error): the account
level adds no count of its own and nothing is counted for a share that failed the
test. -/
theorem traverse_counter_only_from_nested (env : Collaborators σ ε υ ρ χ κ τ π φ)
    (t : fileAccountTraverser υ ρ χ κ) (processor : π) (filters : φ)
    (count : σ → Nat) (k : τ → Nat)
    (hList : ∀ m s, count (env.ListSharesSegment t.accountURL t.ctx m s).2 = count s)
    (hNested : ∀ tr p f s, count (env.traverse tr p f s).2 = count s + k tr)
    (fuel : Nat) (s : σ) (out : Outcome σ ε (Call υ ρ χ κ τ π φ))
    (h : t.traverse env processor filters fuel s = some out) :
    count out.state =
      count s + ((visitedNames out.log).map (fun n => k (shareTraverserFor env t n))).sum ∧
    (∀ n ∈ visitedNames out.log, Admitted env t n) ∧
    (∀ c ∈ out.log, ∀ tr p f, c = Call.traverse tr p f →
      ∃ n ∈ visitedNames out.log, tr = shareTraverserFor env t n) := by
  have hinv := traverseFrom_LogInv env t processor filters fuel { Val := none } s out h
  refine ⟨traverseFrom_count env t processor filters count k hList hNested fuel
    { Val := none } s out h, hinv.2.2.1, ?_⟩
  intro c hc tr p f hctr
  have hmem : c ∈ visits out.log := by
    rw [visits, List.mem_filter]
    exact ⟨hc, by rw [hctr]; rfl⟩
  rw [hinv.1, List.mem_flatMap] at hmem
  obtain ⟨n, hn, hcn⟩ := hmem
  refine ⟨n, hn, ?_⟩
  rw [hctr] at hcn
  simp only [visitLog, List.mem_cons, List.mem_singleton, Call.traverse.injEq,
    List.not_mem_nil, or_false, false_or] at hcn
  rcases hcn with h1 | h1 | h1 | h1
  · cases h1
  · cases h1
  · cases h1
  · exact h1.1

/-- C9, scenario: shares logs, images, log-archive with pattern `log*`, each nested
traversal enumerating two objects: the count ends at four, two for logs and two
for log-archive, none for images. -/
theorem traverse_counter_only_from_nested_witness :
    Scenario.run Scenario.logsTable [] "log*" 2 =
      some (Scenario.outcome Scenario.logsTable [] "log*" 2) ∧
    (Scenario.outcome Scenario.logsTable [] "log*" 2).state = 4 ∧
    (Scenario.outcome Scenario.logsTable [] "log*" 2).state =
      0 + ((visitedNames (Scenario.outcome Scenario.logsTable [] "log*" 2).log).map
        (fun _ => 2)).sum :=
  ⟨rfl, rfl,
    (traverse_counter_only_from_nested (Scenario.env Scenario.logsTable [])
      (Scenario.account "log*") [] () (fun n => n) (fun _ => 2) (fun _ _ => rfl)
      (fun _ _ _ _ => rfl) 2 0 (Scenario.outcome Scenario.logsTable [] "log*" 2) rfl).1⟩

/-- C10: every run that ends starts with a fetch with the initial marker; and for
a finite paged listing of n pages (n is at least 1) in which no fetch, pattern
match or nested traversal fails, `traverse` returns `nil` with enough fuel after
exactly n fetches, the first with the initial marker and each later one with the
`NextMarker` of the previous response; if no listed share passes the pattern test,
all n pages are still fetched and nothing is visited. -/
theorem traverse_drains_all_pages (env : Collaborators σ ε υ ρ χ κ τ π φ)
    (t : fileAccountTraverser υ ρ χ κ) (processor : π) (filters : φ)
    (pages : List ListSharesResponse)
    (hS : Serves env t { Val := none } pages)
    (hEnd : (lastMarker { Val := none } pages).NotDone = false)
    (hMatch : ∀ v ∈ listed pages, MatchSucceeds env t v)
    (hNested : ∀ v ∈ listed pages, passes env t v = true →
      NestedReturns env t processor filters v none) :
    1 ≤ pages.length ∧
    (∀ fuel s out, t.traverse env processor filters fuel s = some out →
      (fetches out.log).head? = some { Val := none }) ∧
    (∀ fuel, pages.length ≤ fuel → ∀ s,
      ∃ out, t.traverse env processor filters fuel s = some out ∧ out.err = none ∧
        fetches out.log =
          ({ Val := none } :: pages.map ListSharesResponse.NextMarker).dropLast ∧
        (fetches out.log).length = pages.length ∧
        ((∀ v ∈ listed pages, passes env t v = false) →
          visits out.log = [] ∧ visitedNames out.log = [] ∧
          handedProcessors out.log = [])) := by
  refine ⟨pages_ne_nil_of_done pages hEnd, ?_, ?_⟩
  · intro fuel s out h
    exact fetches_head out.log t.accountURL t.ctx _
      (traverseFrom_head env t processor filters fuel { Val := none } s out rfl h)
  · intro fuel hfuel s
    obtain ⟨s1, h⟩ := traverseFrom_ok env t processor filters pages { Val := none } hS hEnd
      hMatch hNested fuel hfuel s
    have hinv := traverseFrom_LogInv env t processor filters fuel { Val := none } s _ h
    have hf := fetches_pagesLog env t processor filters pages { Val := none }
    refine ⟨_, h, rfl, hf, ?_, ?_⟩
    · simp only [hf, List.length_dropLast, List.length_cons, List.length_map]
      omega
    · intro hnone
      have hfil : (listed pages).filter (passes env t) = [] := by
        rw [List.filter_eq_nil_iff]
        intro v hv
        simp [hnone v hv]
      have hn : visitedNames (pagesLog env t processor filters { Val := none } pages) = [] := by
        rw [visitedNames_pagesLog, hfil]; rfl
      refine ⟨?_, hn, ?_⟩
      · simp only [visits_pagesLog, hfil]; rfl
      · have := hinv.2.1
        simp only at this
        rw [this, hn]; rfl

/-- C10, scenario: shares logs, images (first page) and log-archive (second page)
with the pattern `zzz*`, which matches nothing: both pages are fetched, the second
with the marker returned by the first, and nothing is visited. -/
theorem traverse_drains_all_pages_witness :
    ∃ out, Scenario.run Scenario.logsTable [] "zzz*" 2 = some out ∧ out.err = none ∧
      fetches out.log = [{ Val := none }, { Val := some "page2" }] ∧
      visits out.log = [] := by
  have h := traverse_drains_all_pages (Scenario.env Scenario.logsTable [])
    (Scenario.account "zzz*") [] () [Scenario.logsPage1, Scenario.logsPage2]
    ⟨rfl, fun _ => rfl, rfl, fun _ => rfl, trivial⟩ rfl (by decide) (fun _ _ _ _ => rfl)
  obtain ⟨out, h1, h2, h3, _, h5⟩ := h.2.2 2 (by decide) 0
  exact ⟨out, h1, h2, by rw [h3]; rfl, (h5 (by decide)).1⟩

end Claims

end cmd
